import Mathlib

/-!
Verification development for a grid-based sliding-block puzzle ("Meow Parking Jam").

The embedding models the core game logic:
* `getDelta`, `getOppositeDir` — direction geometry (src/constants.ts, src/utils/levelGenerator.ts)
* `getLevelConfig`, `generateLevel` — level generation (src/utils/levelGenerator.ts)
* `shuffleCats` — the shuffle operator (src/utils/levelGenerator.ts)
* `resolveMove` — the move resolver from `handleCatClick` (src/App.tsx)
* `flipAll` — the bulk flip operator from `handleGlobalFlip` (src/App.tsx)
* `findHint` — the hint finder from the hint effect (src/App.tsx)
* `tickCats` — the bomb-timer tick (src/App.tsx)

Coordinates are JS numbers in the source; every arithmetic operation performed on them is
exact rational arithmetic (small integers, halves and quarter values only), so they are
modelled as `ℚ`.  The calls to `Math.random()` are modelled as explicit oracle structures
(`GenOracle`, `ShufOracle`); the constraints that the source guarantees for the random
values (ranges, permutation properties of the random shuffles) appear as `WF` hypotheses.
-/

-- The core `Rat` operations are sealed (`irreducible`) in Lean core, which blocks `decide`
-- on concrete rational computations; re-opening them only changes elaborator reducibility,
-- never provability.
set_option allowUnsafeReducibility true
attribute [semireducible] Rat.add Rat.mul Rat.sub Rat.neg Rat.inv Rat.ofScientific

/-- Direction enum (src/unnamed/part_001, `Direction`). -/
inductive Direction where
  | UP
  | DOWN
  | LEFT
  | RIGHT
deriving DecidableEq, Repr

/-- CatType enum (src/unnamed/part_001, `CatType`). -/
inductive CatType where
  | NORMAL
  | BOMB
deriving DecidableEq, Repr

/-- A piece ("cat") entity (src/unnamed/part_001, `CatEntity`).  The opaque string id is
modelled as a natural number; `color` is one of the `CAT_SKINS` strings. -/
structure CatEntity where
  id : ℕ
  x : ℚ
  y : ℚ
  direction : Direction
  type : CatType
  timer : Option ℕ
  color : String
  isExited : Bool
  isMoving : Bool
deriving DecidableEq, Repr

/-- Output of the level generator (src/unnamed/part_001, `LevelData`). -/
structure LevelData where
  cats : List CatEntity
  gridSize : ℕ
  level : ℕ
  unlockedMessage : Option String
deriving DecidableEq, Repr

/-- The unit delta of a direction (src/constants.ts, `getDelta`). -/
structure Delta where
  dx : ℚ
  dy : ℚ
deriving DecidableEq, Repr

/-- src/constants.ts, `getDelta`. -/
def getDelta : Direction → Delta
  | Direction.UP => { dx := 0, dy := -1 }
  | Direction.DOWN => { dx := 0, dy := 1 }
  | Direction.LEFT => { dx := -1, dy := 0 }
  | Direction.RIGHT => { dx := 1, dy := 0 }

/-- src/unnamed/part_000, `getOppositeDir`. -/
def getOppositeDir : Direction → Direction
  | Direction.UP => Direction.DOWN
  | Direction.DOWN => Direction.UP
  | Direction.LEFT => Direction.RIGHT
  | Direction.RIGHT => Direction.LEFT

/-- src/constants.ts, `CAT_SKINS`. -/
def CAT_SKINS : List String :=
  ["bg-slate-100", "bg-orange-300", "bg-slate-400", "bg-amber-200",
   "bg-stone-600", "bg-pink-300", "bg-purple-300", "bg-teal-300"]

/-- src/constants.ts, `BOMB_TIME_SECONDS`. -/
def BOMB_TIME_SECONDS : ℕ := 120

/-- src/unnamed/part_000, `LevelConfig`. -/
structure LevelConfig where
  size : ℕ
  skinCount : ℕ
  bombChance : ℚ
  unlockMsg : Option String
deriving DecidableEq, Repr

/-- src/unnamed/part_000, `getLevelConfig`.  The source assigns `size`, `bombChance` and
`unlockMsg` by sequences of `if` statements, modelled here by `let` rebinding. -/
def getLevelConfig (level : ℕ) : LevelConfig :=
  let size := 8
  let size := if 5 ≤ level then 9 else size
  let size := if 10 ≤ level then 10 else size
  let size := if 20 ≤ level then 11 else size
  let skinCount := min CAT_SKINS.length (2 + (level - 1) / 3)
  let bombChance : ℚ := 0
  let bombChance := if 5 ≤ level then 0.05 else bombChance
  let bombChance := if 15 ≤ level then 0.10 else bombChance
  let bombChance := if 30 ≤ level then 0.15 else bombChance
  let unlockMsg : Option String :=
    if level = 1 then some "Tap cats to clear!"
    else if level = 5 then some "⚠️ Bomb Cats & Bigger Grid!"
    else none
  { size := size, skinCount := skinCount, bombChance := bombChance, unlockMsg := unlockMsg }

/-- src/unnamed/part_000, `isValid` (also re-created inline inside `shuffleCats`). -/
def isValid (x y : ℚ) (size : ℕ) : Bool :=
  decide (0 ≤ x) && decide (x < size) && decide (0 ≤ y) && decide (y < size)

/-- A grid cell, as the pair of JS numbers `{x, y}`. -/
abbrev Cell := ℚ × ℚ

/-- The list of all grid cells built by the generation and shuffle loops
(outer loop over `y`, inner loop over `x`). -/
def allCells (gridSize : ℕ) : List Cell :=
  (List.range gridSize).flatMap fun y => (List.range gridSize).map fun x => ((x : ℚ), (y : ℚ))

/-- Squared Euclidean distance of a cell from the grid center.  The source comparator uses
`Math.hypot(a.x - centerX, a.y - centerY)`, and `Math.hypot` is strictly monotone in this
squared distance, so ordering cells by `dist2` is exactly the source ordering. -/
def dist2 (gridSize : ℕ) (c : Cell) : ℚ :=
  (c.1 - gridSize / 2) * (c.1 - gridSize / 2) + (c.2 - gridSize / 2) * (c.2 - gridSize / 2)

/-- Comparator for the center-out cell sort of `generateLevel`.  JS `Array.sort` with a
consistent comparator is a stable sort; it is modelled throughout by the stable
`List.insertionSort` (any two stable sorts of the same list by the same total preorder
produce the same output). -/
def distLeP (gridSize : ℕ) (a b : Cell) : Prop :=
  dist2 gridSize a ≤ dist2 gridSize b

instance (gridSize : ℕ) : DecidableRel (distLeP gridSize) := fun a b =>
  inferInstanceAs (Decidable (dist2 gridSize a ≤ dist2 gridSize b))

/-- Comparator for the row-major sort `(a, b) => (a.y - b.y) || (a.x - b.x)` used on the
final cat lists of `generateLevel` and `shuffleCats`: ascending `y`, then ascending `x`. -/
def catLeP (a b : CatEntity) : Prop :=
  a.y < b.y ∨ (a.y = b.y ∧ a.x ≤ b.x)

instance : DecidableRel catLeP := fun a b =>
  inferInstanceAs (Decidable (a.y < b.y ∨ (a.y = b.y ∧ a.x ≤ b.x)))

/-- Oracle for the `Math.random()` draws of `generateLevel`.
`emptyRand` is the draw deciding the empty-slot budget; `cells` is the cell list after the
random pre-shuffle and the stable sort by center distance; `dirsAt k` is the shuffled
direction list used at the `k`-th cell of the walk; `bombRand`/`skinRand`/`idAt` are the
per-placement draws for bomb kind, skin and id (indexed by the number of cats already
placed, which counts exactly one draw per successful placement). -/
structure GenOracle where
  emptyRand : ℚ
  cells : List Cell
  dirsAt : ℕ → List Direction
  bombRand : ℕ → ℚ
  skinRand : ℕ → ℚ
  idAt : ℕ → ℕ

/-- The inner direction loop of the placement walk in `generateLevel`
(src/unnamed/part_000 lines 99-132): accept the first direction whose tail cell is
in-bounds and unoccupied; the created cat has its head at the tail candidate and travels
in the opposite direction ("SWAPPED LOGIC" in the source). -/
def tryDirections (gridSize : ℕ) (cell : Cell) (occupied : List Cell) (isBomb : Bool)
    (skin : String) (newId : ℕ) : List Direction → Option CatEntity
  | [] => none
  | dir :: rest =>
    let delta := getDelta dir
    let tailX := cell.1 - delta.dx
    let tailY := cell.2 - delta.dy
    if isValid tailX tailY gridSize && !(decide ((tailX, tailY) ∈ occupied)) then
      some { id := newId, x := tailX, y := tailY, direction := getOppositeDir dir,
             type := if isBomb then CatType.BOMB else CatType.NORMAL,
             timer := if isBomb then some BOMB_TIME_SECONDS else none,
             color := skin, isExited := false, isMoving := false }
    else
      tryDirections gridSize cell occupied isBomb skin newId rest

/-- The placement walk of `generateLevel` (src/unnamed/part_000 lines 88-133).
`idx` is the position of the current cell in the walk, `cats` the accumulator,
`occupied` the occupancy set (modelled as a list of cells). -/
def placeCats (o : GenOracle) (gridSize : ℕ) (bombChance : ℚ) (availableSkins : List String)
    (target : ℤ) : List Cell → ℕ → List CatEntity → List Cell → List CatEntity
  | [], _, cats, _ => cats
  | cell :: rest, idx, cats, occupied =>
    if target ≤ (cats.length : ℤ) then cats
    else if cell ∈ occupied then
      placeCats o gridSize bombChance availableSkins target rest (idx + 1) cats occupied
    else
      let isBomb := decide (o.bombRand cats.length < bombChance)
      let skin := availableSkins.getD ((o.skinRand cats.length * availableSkins.length).floor.toNat) ""
      match tryDirections gridSize cell occupied isBomb skin (o.idAt cats.length) (o.dirsAt idx) with
      | some cat =>
        placeCats o gridSize bombChance availableSkins target rest (idx + 1)
          (cats ++ [cat]) (occupied ++ [cell, (cat.x, cat.y)])
      | none =>
        placeCats o gridSize bombChance availableSkins target rest (idx + 1) cats occupied

/-- src/unnamed/part_000, `generateLevel`. -/
def generateLevel (o : GenOracle) (levelNumber : ℕ) : LevelData :=
  let config := getLevelConfig levelNumber
  let gridSize := config.size
  let totalCells : ℤ := gridSize * gridSize
  -- emptySlots = Math.floor(Math.random() * (maxEmpty - minEmpty + 1)) + minEmpty,
  -- with maxEmpty = 10 and minEmpty = 2
  let emptySlots : ℤ := (o.emptyRand * (10 - 2 + 1)).floor + 2
  let targetCatCount : ℤ := (totalCells - emptySlots) / 2
  let cats := placeCats o gridSize config.bombChance (CAT_SKINS.take config.skinCount)
    targetCatCount o.cells 0 [] []
  { cats := List.insertionSort catLeP cats, gridSize := gridSize, level := levelNumber,
    unlockedMessage := config.unlockMsg }

/-- The head cell of a cat: its stored `(x, y)`. -/
def headCell (c : CatEntity) : Cell := (c.x, c.y)

/-- The tail cell of a cat: `head - delta(direction)` (implicit in the source). -/
def tailCell (c : CatEntity) : Cell :=
  (c.x - (getDelta c.direction).dx, c.y - (getDelta c.direction).dy)

/-- Oracle for the `Math.random()` draws of `shuffleCats`: the randomized full cell list,
and the shuffled direction list for each (cat, cell) pair tried. -/
structure ShufOracle where
  cells : List Cell
  dirsAt : ℕ → ℕ → List Direction

/-- The inner direction loop of `shuffleCats` (src/unnamed/part_000 lines 177-196). -/
def tryShufDirections (gridSize : ℕ) (cell : Cell) (occupied : List Cell)
    (oldCat : CatEntity) : List Direction → Option CatEntity
  | [] => none
  | dir :: rest =>
    let delta := getDelta dir
    let tailX := cell.1 - delta.dx
    let tailY := cell.2 - delta.dy
    if isValid tailX tailY gridSize && !(decide ((tailX, tailY) ∈ occupied)) then
      some { oldCat with x := cell.1, y := cell.2, direction := dir, isMoving := false }
    else
      tryShufDirections gridSize cell occupied oldCat rest

/-- The per-cat cell scan of `shuffleCats` (src/unnamed/part_000 lines 170-198). -/
def findSpot (o : ShufOracle) (gridSize : ℕ) (catIdx : ℕ) (oldCat : CatEntity)
    (occupied : List Cell) : List Cell → ℕ → Option CatEntity
  | [], _ => none
  | cell :: rest, cellIdx =>
    if cell ∈ occupied then findSpot o gridSize catIdx oldCat occupied rest (cellIdx + 1)
    else
      match tryShufDirections gridSize cell occupied oldCat (o.dirsAt catIdx cellIdx) with
      | some newCat => some newCat
      | none => findSpot o gridSize catIdx oldCat occupied rest (cellIdx + 1)

/-- The outer loop of `shuffleCats` over the active cats (src/unnamed/part_000
lines 166-200).  A cat for which no spot is found is dropped. -/
def shufLoop (o : ShufOracle) (gridSize : ℕ) :
    List CatEntity → ℕ → List CatEntity → List Cell → List CatEntity
  | [], _, newActive, _ => newActive
  | oldCat :: rest, catIdx, newActive, occupied =>
    match findSpot o gridSize catIdx oldCat occupied o.cells 0 with
    | some newCat =>
      shufLoop o gridSize rest (catIdx + 1) (newActive ++ [newCat])
        (occupied ++ [headCell newCat, tailCell newCat])
    | none => shufLoop o gridSize rest (catIdx + 1) newActive occupied

/-- src/unnamed/part_000, `shuffleCats`. -/
def shuffleCats (o : ShufOracle) (currentCats : List CatEntity) (gridSize : ℕ) :
    List CatEntity :=
  let activeCats := currentCats.filter fun c => !c.isExited
  let exitedCats := currentCats.filter fun c => c.isExited
  let newActiveCats := shufLoop o gridSize activeCats 0 [] []
  List.insertionSort catLeP (exitedCats ++ newActiveCats)

/-- JS `Math.round` on the rationals that occur here: `Math.round(x) = floor(x + 0.5)`
(round half toward positive infinity). -/
def jround (q : ℚ) : ℤ := (q + 0.5).floor

/-- The obstacle test of the move-resolver raycast (src/App.tsx lines 331-339): some other
non-exited cat's rounded head or tail equals the candidate cell. -/
def obstacleAt (cats : List CatEntity) (id : ℕ) (nextX nextY : ℚ) : Bool :=
  cats.any fun c =>
    if c.id == id || c.isExited then false
    else if decide ((jround c.x : ℚ) = nextX) && decide ((jround c.y : ℚ) = nextY) then true
    else
      let tdelta := getDelta c.direction
      let tailX := c.x - tdelta.dx
      let tailY := c.y - tdelta.dy
      decide ((jround tailX : ℚ) = nextX) && decide ((jround tailY : ℚ) = nextY)

/-- The raycast loop of `handleCatClick` (src/App.tsx lines 319-350), stepping
`step = 1 .. gridSize` (here: `fuel` steps remain, starting at `fuel = gridSize`,
`step = 1`).  `targetX`/`targetY` carry the running destination. -/
def raycastLoop (gridSize : ℕ) (cats : List CatEntity) (id : ℕ) (cat : CatEntity)
    (dx dy : ℚ) : ℕ → ℕ → ℚ → ℚ → ℚ × ℚ × Bool
  | 0, _, targetX, targetY => (targetX, targetY, false)
  | fuel + 1, step, _, _ =>
    let nextX := cat.x + dx * step
    let nextY := cat.y + dy * step
    if nextX < 0 ∨ (gridSize : ℚ) ≤ nextX ∨ nextY < 0 ∨ (gridSize : ℚ) ≤ nextY then
      -- exit: move the cat 2.5 x grid size past the boundary
      (nextX + dx * (gridSize * 2.5), nextY + dy * (gridSize * 2.5), true)
    else if obstacleAt cats id nextX nextY then
      (nextX - dx, nextY - dy, false)
    else
      raycastLoop gridSize cats id cat dx dy fuel (step + 1) nextX nextY

/-- The move resolver: the state-transforming core of `handleCatClick`
(src/App.tsx lines 295-369).  Returns the updated cat list (the input list itself for
every no-op path). -/
def resolveMove (gridSize : ℕ) (cats : List CatEntity) (id : ℕ) : List CatEntity :=
  match cats.findIdx? (fun c => c.id == id) with
  | none => cats
  | some catIndex =>
    match cats[catIndex]? with
    | none => cats
    | some cat =>
      if cat.isExited then cats
      else
        let delta := getDelta cat.direction
        let r := raycastLoop gridSize cats id cat delta.dx delta.dy gridSize 1 cat.x cat.y
        if r.1 = cat.x ∧ r.2.1 = cat.y then cats
        else
          cats.set catIndex
            { cat with x := r.1, y := r.2.1, isExited := r.2.2, isMoving := true }

/-- The per-cat transform of `handleGlobalFlip` (src/App.tsx lines 264-283).  The final
`else Direction.UP` branch models the source's initializer `let newDir = Direction.UP`. -/
def flipCat (cat : CatEntity) : CatEntity :=
  if cat.isExited then cat
  else
    let newDir :=
      if cat.direction = Direction.UP then Direction.DOWN
      else if cat.direction = Direction.DOWN then Direction.UP
      else if cat.direction = Direction.LEFT then Direction.RIGHT
      else if cat.direction = Direction.RIGHT then Direction.LEFT
      else Direction.UP
    let delta := getDelta cat.direction
    { cat with direction := newDir, x := cat.x - delta.dx, y := cat.y - delta.dy }

/-- src/App.tsx, `handleGlobalFlip` (the `setCats` transform). -/
def flipAll (cats : List CatEntity) : List CatEntity := cats.map flipCat

/-- The per-second bomb tick (src/App.tsx lines 147-166): decrement every active bomb's
timer, and report game over when an active bomb has reached zero.  (The source's
`hasChanges` flag only avoids re-allocating an identical array.) -/
def tickCats (cats : List CatEntity) : List CatEntity × Bool :=
  let nextCats := cats.map fun cat =>
    match cat.timer with
    | some t =>
      if cat.type = CatType.BOMB ∧ cat.isExited = false then
        if t = 0 then cat else { cat with timer := some (t - 1) }
      else cat
    | none => cat
  let gameOver := cats.any fun cat =>
    match cat.timer with
    | some t => decide (cat.type = CatType.BOMB) && !cat.isExited && decide (t = 0)
    | none => false
  (nextCats, gameOver)

/-- The blocked test of the hint scan (src/App.tsx lines 196-204): some other active cat's
rounded head or tail equals the candidate cell.  The scan runs over the already-filtered
active list. -/
def hintBlocked (activeCats : List CatEntity) (cat : CatEntity) (nx ny : ℚ) : Bool :=
  activeCats.any fun other =>
    if other.id == cat.id then false
    else if decide ((jround other.x : ℚ) = nx) && decide ((jround other.y : ℚ) = ny) then true
    else
      let od := getDelta other.direction
      decide ((jround (other.x - od.dx) : ℚ) = nx) && decide ((jround (other.y - od.dy) : ℚ) = ny)

/-- The path-simulation loop of the hint scan (src/App.tsx lines 188-206); returns `true`
exactly when the simulated path leaves the grid before hitting any obstruction. -/
def canExitLoop (activeCats : List CatEntity) (gridSize : ℕ) (cat : CatEntity)
    (dx dy : ℚ) : ℕ → ℕ → Bool
  | 0, _ => false
  | fuel + 1, step =>
    let nx := cat.x + dx * step
    let ny := cat.y + dy * step
    if nx < 0 ∨ (gridSize : ℚ) ≤ nx ∨ ny < 0 ∨ (gridSize : ℚ) ≤ ny then true
    else if hintBlocked activeCats cat nx ny then false
    else canExitLoop activeCats gridSize cat dx dy fuel (step + 1)

/-- The qualification predicate of the hint scan for one cat. -/
def canExit (activeCats : List CatEntity) (gridSize : ℕ) (cat : CatEntity) : Bool :=
  let delta := getDelta cat.direction
  canExitLoop activeCats gridSize cat delta.dx delta.dy gridSize 1

/-- The hint finder (src/App.tsx lines 182-212): the first active cat whose ray exits. -/
def findHint (cats : List CatEntity) (gridSize : ℕ) : Option CatEntity :=
  let activeCats := cats.filter fun c => !c.isExited
  activeCats.find? (canExit activeCats gridSize)

/-! ## Semantic properties -/

/-- A rational that is an integer (every coordinate of a non-exited cat is one). -/
def IsIntQ (q : ℚ) : Prop := ∃ n : ℤ, q = (n : ℚ)

/-- A cell lies within `[0, gridSize)` on both axes. -/
def InBounds (gridSize : ℕ) (p : Cell) : Prop :=
  0 ≤ p.1 ∧ p.1 < gridSize ∧ 0 ≤ p.2 ∧ p.2 < gridSize

/-- The candidate cell is outside `[0, gridSize)` on either axis, written exactly as the
source's exit test `nextX < 0 || nextX >= gridSize || nextY < 0 || nextY >= gridSize`. -/
def OOB (gridSize : ℕ) (p : Cell) : Prop :=
  p.1 < 0 ∨ (gridSize : ℚ) ≤ p.1 ∨ p.2 < 0 ∨ (gridSize : ℚ) ≤ p.2

instance (gridSize : ℕ) (p : Cell) : Decidable (InBounds gridSize p) :=
  inferInstanceAs (Decidable (0 ≤ p.1 ∧ p.1 < gridSize ∧ 0 ≤ p.2 ∧ p.2 < gridSize))

instance (gridSize : ℕ) (p : Cell) : Decidable (OOB gridSize p) :=
  inferInstanceAs
    (Decidable (p.1 < 0 ∨ (gridSize : ℚ) ≤ p.1 ∨ p.2 < 0 ∨ (gridSize : ℚ) ≤ p.2))

/-- The occupied cell sets `{head, tail}` of two cats are disjoint. -/
def CellsDisjoint (a b : CatEntity) : Prop :=
  headCell a ≠ headCell b ∧ headCell a ≠ tailCell b ∧
  tailCell a ≠ headCell b ∧ tailCell a ≠ tailCell b

instance (a b : CatEntity) : Decidable (CellsDisjoint a b) :=
  inferInstanceAs (Decidable (headCell a ≠ headCell b ∧ headCell a ≠ tailCell b ∧
    tailCell a ≠ headCell b ∧ tailCell a ≠ tailCell b))

/-- Disjointness demanded only between non-exited cats. -/
def DisjRel (a b : CatEntity) : Prop :=
  a.isExited = false → b.isExited = false → CellsDisjoint a b

instance (a b : CatEntity) : Decidable (DisjRel a b) :=
  inferInstanceAs (Decidable (a.isExited = false → b.isExited = false → CellsDisjoint a b))

/-- The structural-validity invariant of the spec: every non-exited cat's head and tail
cells lie within `[0, gridSize)` on both axes, and the occupied cell sets of any two
distinct non-exited cats are disjoint. -/
def ValidState (gridSize : ℕ) (cats : List CatEntity) : Prop :=
  (∀ c ∈ cats, c.isExited = false → InBounds gridSize (headCell c) ∧ InBounds gridSize (tailCell c)) ∧
  List.Pairwise DisjRel cats

/-- Both coordinates of a cat are integers. -/
def IntCat (c : CatEntity) : Prop := IsIntQ c.x ∧ IsIntQ c.y

/-- The full inductive invariant: structural validity, integer coordinates for all
non-exited cats, and pairwise-distinct ids (the source's ids are "random unique" strings;
`resolveMove` and the obstacle tests identify cats by id). -/
def GameInv (gridSize : ℕ) (cats : List CatEntity) : Prop :=
  ValidState gridSize cats ∧
  (∀ c ∈ cats, c.isExited = false → IntCat c) ∧
  (cats.map CatEntity.id).Nodup

/-- Well-formedness of a generation oracle: each field satisfies exactly what the source
guarantees for the corresponding `Math.random()` draw.  `cells` is a permutation of the
full cell list that is sorted by center distance (the random pre-shuffle followed by the
stable distance sort can produce precisely these lists); each `dirsAt k` is a permutation
of the four directions (Fisher-Yates shuffle); the raw draws lie in `[0, 1)`; distinct
placements receive distinct ids. -/
def GenOracle.WF (o : GenOracle) (gridSize : ℕ) : Prop :=
  0 ≤ o.emptyRand ∧ o.emptyRand < 1 ∧
  o.cells.Perm (allCells gridSize) ∧
  List.Sorted (distLeP gridSize) o.cells ∧
  (∀ k, (o.dirsAt k).Perm [Direction.UP, Direction.DOWN, Direction.LEFT, Direction.RIGHT]) ∧
  (∀ k, 0 ≤ o.bombRand k ∧ o.bombRand k < 1) ∧
  (∀ k, 0 ≤ o.skinRand k ∧ o.skinRand k < 1) ∧
  Function.Injective o.idAt

/-- Well-formedness of a shuffle oracle: the randomized cell list is a permutation of the
full cell list, and each direction list is a permutation of the four directions. -/
def ShufOracle.WF (o : ShufOracle) (gridSize : ℕ) : Prop :=
  o.cells.Perm (allCells gridSize) ∧
  (∀ i j, (o.dirsAt i j).Perm [Direction.UP, Direction.DOWN, Direction.LEFT, Direction.RIGHT])

/-- The states reachable within one level: the generated state, closed under
`resolveMove`, well-formed `shuffleCats` and `flipAll`. -/
inductive Reach : ℕ → List CatEntity → Prop
  | gen (o : GenOracle) (level : ℕ) (hwf : o.WF (getLevelConfig level).size) :
      Reach (getLevelConfig level).size (generateLevel o level).cats
  | move (gridSize : ℕ) (cats : List CatEntity) (id : ℕ) :
      Reach gridSize cats → Reach gridSize (resolveMove gridSize cats id)
  | shuf (gridSize : ℕ) (cats : List CatEntity) (o : ShufOracle) (hwf : o.WF gridSize) :
      Reach gridSize cats → Reach gridSize (shuffleCats o cats gridSize)
  | flip (gridSize : ℕ) (cats : List CatEntity) :
      Reach gridSize cats → Reach gridSize (flipAll cats)

/-! ## Basic facts about the flip operator -/

lemma flipCat_exited {c : CatEntity} (h : c.isExited = true) : flipCat c = c := by
  simp [flipCat, h]

lemma flipCat_fields (c : CatEntity) (h : c.isExited = false) :
    (flipCat c).x = c.x - (getDelta c.direction).dx ∧
    (flipCat c).y = c.y - (getDelta c.direction).dy ∧
    (flipCat c).direction = getOppositeDir c.direction ∧
    (flipCat c).id = c.id ∧ (flipCat c).type = c.type ∧ (flipCat c).timer = c.timer ∧
    (flipCat c).color = c.color ∧ (flipCat c).isExited = c.isExited ∧
    (flipCat c).isMoving = c.isMoving := by
  cases hd : c.direction <;> simp [flipCat, h, hd, getOppositeDir]

lemma flipCat_isExited (c : CatEntity) : (flipCat c).isExited = c.isExited := by
  cases h : c.isExited
  · rw [(flipCat_fields c h).2.2.2.2.2.2.2.1]; exact h
  · rw [flipCat_exited h]; exact h

/-- Flipping swaps the head and tail cells of a non-exited cat. -/
lemma flipCat_cells (c : CatEntity) (h : c.isExited = false) :
    headCell (flipCat c) = tailCell c ∧ tailCell (flipCat c) = headCell c := by
  cases hd : c.direction <;>
    simp [flipCat, h, hd, headCell, tailCell, getDelta, getOppositeDir]

lemma flipCat_flipCat (c : CatEntity) : flipCat (flipCat c) = c := by
  cases h : c.isExited
  · cases c with
    | mk id x y direction type timer color isExited isMoving =>
      cases hd : direction <;>
        simp_all [flipCat, getDelta, getOppositeDir]
  · rw [flipCat_exited h, flipCat_exited h]

/-! ## Claim C10: flipAll is an involution -/

/-- C10: flipAll is an involution on the piece list — applying flipAll twice restores
every piece's head position and direction exactly (opposite(opposite(d)) = d and
delta(opposite(d)) = -delta(d)), so flipAll (flipAll pieces) = pieces. -/
theorem flipAll_involution (cats : List CatEntity) : flipAll (flipAll cats) = cats := by
  induction cats with
  | nil => rfl
  | cons c l ih =>
    show flipCat (flipCat c) :: flipAll (flipAll l) = c :: l
    rw [flipCat_flipCat, ih]

/-! ## Claim C5: the frame effect of flipAll -/

/-- C5: flipAll maps every non-exited piece to a piece with new head
= old head - delta(old direction) and new direction = opposite of old direction, leaves
exited pieces untouched, changes no piece's id, kind, timer, or variant, preserves the
exited set exactly, and leaves the cardinality of the active set unchanged. -/
theorem flipAll_frame (cats : List CatEntity) :
    (flipAll cats).length = cats.length ∧
    ((flipAll cats).filter fun c => !c.isExited).length
      = (cats.filter fun c => !c.isExited).length ∧
    ∀ i (hi : i < cats.length) (hif : i < (flipAll cats).length),
      ((flipAll cats).get ⟨i, hif⟩).id = (cats.get ⟨i, hi⟩).id ∧
      ((flipAll cats).get ⟨i, hif⟩).type = (cats.get ⟨i, hi⟩).type ∧
      ((flipAll cats).get ⟨i, hif⟩).timer = (cats.get ⟨i, hi⟩).timer ∧
      ((flipAll cats).get ⟨i, hif⟩).color = (cats.get ⟨i, hi⟩).color ∧
      ((flipAll cats).get ⟨i, hif⟩).isExited = (cats.get ⟨i, hi⟩).isExited ∧
      ((cats.get ⟨i, hi⟩).isExited = true →
        (flipAll cats).get ⟨i, hif⟩ = cats.get ⟨i, hi⟩) ∧
      ((cats.get ⟨i, hi⟩).isExited = false →
        ((flipAll cats).get ⟨i, hif⟩).x
            = (cats.get ⟨i, hi⟩).x - (getDelta (cats.get ⟨i, hi⟩).direction).dx ∧
        ((flipAll cats).get ⟨i, hif⟩).y
            = (cats.get ⟨i, hi⟩).y - (getDelta (cats.get ⟨i, hi⟩).direction).dy ∧
        ((flipAll cats).get ⟨i, hif⟩).direction
            = getOppositeDir (cats.get ⟨i, hi⟩).direction) := by
  refine ⟨by simp [flipAll], ?_, ?_⟩
  · rw [flipAll, List.filter_map, List.length_map]
    have : ∀ l : List CatEntity,
        (l.filter fun c => (!(flipCat c).isExited)) = l.filter fun c => !c.isExited := by
      intro l
      apply List.filter_congr
      intro c _
      rw [flipCat_isExited]
    rw [show ((fun c => !c.isExited) ∘ flipCat) = fun c => !(flipCat c).isExited from rfl]
    rw [this]
  · intro i hi hif
    have hg : (flipAll cats).get ⟨i, hif⟩ = flipCat (cats.get ⟨i, hi⟩) := by
      simp [flipAll]
    rw [hg]
    set c := cats.get ⟨i, hi⟩ with hc
    cases h : c.isExited
    · obtain ⟨hx, hy, hdir, hid, hty, hti, hco, hex, _⟩ := flipCat_fields c h
      exact ⟨hid, hty, hti, hco, hex.trans h, fun hcontra => absurd hcontra (by decide),
        fun _ => ⟨hx, hy, hdir⟩⟩
    · rw [flipCat_exited h]
      exact ⟨rfl, rfl, rfl, rfl, h, fun _ => rfl, fun hcontra => absurd hcontra (by decide)⟩

/-! ## Concrete entities used by the witnesses -/

/-- Witness cat: the piece "A" of the spec scenarios, head (3,3) facing RIGHT. -/
def catW1 : CatEntity :=
  { id := 0, x := 3, y := 3, direction := Direction.RIGHT, type := CatType.NORMAL,
    timer := none, color := "bg-slate-100", isExited := false, isMoving := false }

/-- Witness cat: the piece "B" of the spec scenarios, head (5,3) facing RIGHT
(so its tail is (4,3)). -/
def catW2 : CatEntity :=
  { id := 1, x := 5, y := 3, direction := Direction.RIGHT, type := CatType.NORMAL,
    timer := none, color := "bg-orange-300", isExited := false, isMoving := false }

/-- Witness cat: a single piece at head (4,0) facing DOWN on an 8x8 grid. -/
def catW3 : CatEntity :=
  { id := 2, x := 4, y := 0, direction := Direction.DOWN, type := CatType.NORMAL,
    timer := none, color := "bg-slate-100", isExited := false, isMoving := false }

/-- Witness cat: an exited bomb piece parked far off-board. -/
def catWExited : CatEntity :=
  { id := 3, x := 1, y := 28, direction := Direction.DOWN, type := CatType.BOMB,
    timer := some 5, color := "bg-slate-400", isExited := true, isMoving := true }

/-- Witness for C5 at a concrete two-piece list: the active piece's head moves back by its
delta, and the exited piece is untouched. -/
theorem flipAll_frame_witness :
    ((flipAll [catW1, catWExited]).get ⟨0, by decide⟩).x
        = ([catW1, catWExited].get ⟨0, by decide⟩).x
          - (getDelta ([catW1, catWExited].get ⟨0, by decide⟩).direction).dx ∧
    (flipAll [catW1, catWExited]).get ⟨1, by decide⟩
        = [catW1, catWExited].get ⟨1, by decide⟩ :=
  ⟨(((flipAll_frame [catW1, catWExited]).2.2 0 (by decide) (by decide)).2.2.2.2.2.2
      (by decide)).1,
   ((flipAll_frame [catW1, catWExited]).2.2 1 (by decide) (by decide)).2.2.2.2.2.1
      (by decide)⟩

/-! ## The raycast of the move resolver -/

/-- The candidate cell of the raycast at step `k`: head plus `k` times the delta. -/
def rayPos (cat : CatEntity) (dx dy : ℚ) (k : ℕ) : Cell :=
  (cat.x + dx * k, cat.y + dy * k)

/-- Step `j` of the raycast is free: in bounds and not obstructed. -/
def FreeStep (gridSize : ℕ) (cats : List CatEntity) (id : ℕ) (cat : CatEntity)
    (dx dy : ℚ) (j : ℕ) : Prop :=
  ¬ OOB gridSize (rayPos cat dx dy j) ∧
  obstacleAt cats id (rayPos cat dx dy j).1 (rayPos cat dx dy j).2 = false

instance (gridSize : ℕ) (cats : List CatEntity) (id : ℕ) (cat : CatEntity)
    (dx dy : ℚ) (j : ℕ) : Decidable (FreeStep gridSize cats id cat dx dy j) :=
  inferInstanceAs (Decidable (¬ OOB gridSize (rayPos cat dx dy j) ∧
    obstacleAt cats id (rayPos cat dx dy j).1 (rayPos cat dx dy j).2 = false))

/-- If steps `step .. s-1` are free and step `s` leaves the grid, the raycast loop exits
at step `s`, returning the out-of-bounds cell displaced a further `gridSize * 2.5` along
the delta. -/
lemma raycastLoop_exit (gridSize : ℕ) (cats : List CatEntity) (id : ℕ) (cat : CatEntity)
    (dx dy : ℚ) (s : ℕ) (hOOB : OOB gridSize (rayPos cat dx dy s)) :
    ∀ fuel step tx ty, step ≤ s → s < step + fuel →
      (∀ j, step ≤ j → j < s → FreeStep gridSize cats id cat dx dy j) →
      raycastLoop gridSize cats id cat dx dy fuel step tx ty
        = ((rayPos cat dx dy s).1 + dx * (gridSize * 2.5),
           (rayPos cat dx dy s).2 + dy * (gridSize * 2.5), true) := by
  intro fuel
  induction fuel with
  | zero => intro step tx ty hle hlt _; omega
  | succ f ih =>
    intro step tx ty hle hlt hfree
    rw [raycastLoop]
    rcases eq_or_lt_of_le hle with heq | hstep
    · subst heq
      rw [if_pos (by simpa [OOB, rayPos] using hOOB)]
      simp [rayPos]
    · have h1 := (hfree step le_rfl hstep).1
      have h2 := (hfree step le_rfl hstep).2
      simp only [OOB, rayPos] at h1 h2
      rw [if_neg h1, if_neg (by simp [h2])]
      exact ih (step + 1) _ _ hstep (by omega)
        (fun j hj1 hj2 => hfree j (by omega) hj2)

/-- If the very first raycast step is in bounds but obstructed, the loop stops there and
returns the cell one delta back, which is the original head. -/
lemma raycastLoop_first_blocked (gridSize : ℕ) (cats : List CatEntity) (id : ℕ)
    (cat : CatEntity) (dx dy : ℚ) (fuel : ℕ)
    (hin : ¬ OOB gridSize (rayPos cat dx dy 1))
    (hobs : obstacleAt cats id (rayPos cat dx dy 1).1 (rayPos cat dx dy 1).2 = true) :
    raycastLoop gridSize cats id cat dx dy (fuel + 1) 1 cat.x cat.y
      = ((rayPos cat dx dy 1).1 - dx, (rayPos cat dx dy 1).2 - dy, false) := by
  rw [raycastLoop]
  rw [if_neg (by simpa [OOB, rayPos] using hin)]
  rw [if_pos (by simpa [rayPos] using hobs)]
  simp [rayPos]

/-! ## Claim C3: out-of-bounds candidate means exit -/

/-- C3: in resolveMove, when the raycast's candidate cell falls outside [0, gridSize) on
either axis (at step s, all earlier steps being in bounds and unobstructed), the piece
exits: isExited is set true and the new head is the out-of-bounds candidate cell displaced
a further gridSize * 2.5 cells along the movement delta. -/
theorem resolveMove_exits (gridSize : ℕ) (cats : List CatEntity) (id i : ℕ)
    (cat : CatEntity) (s : ℕ)
    (hfind : cats.findIdx? (fun c => c.id == id) = some i)
    (hget : cats[i]? = some cat)
    (hex : cat.isExited = false)
    (hs1 : 1 ≤ s) (hsg : s ≤ gridSize)
    (hOOB : OOB gridSize
      (rayPos cat (getDelta cat.direction).dx (getDelta cat.direction).dy s))
    (hfree : ∀ j, 1 ≤ j → j < s →
      FreeStep gridSize cats id cat (getDelta cat.direction).dx (getDelta cat.direction).dy j) :
    resolveMove gridSize cats id =
      cats.set i { cat with
        x := (rayPos cat (getDelta cat.direction).dx (getDelta cat.direction).dy s).1
              + (getDelta cat.direction).dx * (gridSize * 2.5),
        y := (rayPos cat (getDelta cat.direction).dx (getDelta cat.direction).dy s).2
              + (getDelta cat.direction).dy * (gridSize * 2.5),
        isExited := true, isMoving := true } := by
  have hray := raycastLoop_exit gridSize cats id cat
    (getDelta cat.direction).dx (getDelta cat.direction).dy s hOOB gridSize 1 cat.x cat.y
    hs1 (by omega) (fun j hj1 hj2 => hfree j hj1 hj2)
  have hsq : (1:ℚ) ≤ (s:ℚ) := by exact_mod_cast hs1
  have hgq : (1:ℚ) ≤ (gridSize:ℚ) := by exact_mod_cast le_trans hs1 hsg
  have hne : ¬ ((rayPos cat (getDelta cat.direction).dx (getDelta cat.direction).dy s).1
        + (getDelta cat.direction).dx * (gridSize * 2.5) = cat.x ∧
      (rayPos cat (getDelta cat.direction).dx (getDelta cat.direction).dy s).2
        + (getDelta cat.direction).dy * (gridSize * 2.5) = cat.y) := by
    cases hd : cat.direction <;>
      · simp only [getDelta, rayPos, hd]
        rintro ⟨h1, h2⟩
        nlinarith [h1, h2, hsq, hgq]
  simp only [resolveMove, hfind, hget, hex, Bool.false_eq_true, if_false]
  rw [hray]
  rw [if_neg hne]

/-- Witness for C3: the spec scenario — grid size 8, a single piece at head (4,0) facing
DOWN, no other pieces; resolveMove exits the piece past the y = 8 boundary
(8 + 8 * 2.5 = 28). -/
theorem resolveMove_exits_witness :
    resolveMove 8 [catW3] 2
        = [{ catW3 with x := 4, y := 28, isExited := true, isMoving := true }] ∧
      (8:ℚ) < 28 := by
  rw [resolveMove_exits 8 [catW3] 2 0 catW3 8 (by decide) (by decide) (by decide)
    (by decide) (by decide) (by decide)
    (by intro j hj1 hj2; interval_cases j <;> exact ⟨by decide, by decide⟩)]
  exact ⟨by decide, by decide⟩

/-! ## Claim C4: first step blocked means no-op -/

/-- C4: in resolveMove, when the very first raycast step is in bounds but occupied by
another non-exited piece's head or tail, the resolved destination equals the current head
and the call returns the piece list unchanged. -/
theorem resolveMove_noop_first_blocked (gridSize : ℕ) (cats : List CatEntity) (id i : ℕ)
    (cat : CatEntity)
    (hfind : cats.findIdx? (fun c => c.id == id) = some i)
    (hget : cats[i]? = some cat)
    (hex : cat.isExited = false)
    (hin : ¬ OOB gridSize
      (rayPos cat (getDelta cat.direction).dx (getDelta cat.direction).dy 1))
    (hobs : obstacleAt cats id
      (rayPos cat (getDelta cat.direction).dx (getDelta cat.direction).dy 1).1
      (rayPos cat (getDelta cat.direction).dx (getDelta cat.direction).dy 1).2 = true) :
    resolveMove gridSize cats id = cats := by
  have hg : 0 < gridSize := by
    simp only [OOB, rayPos] at hin
    push_neg at hin
    have : (0:ℚ) < gridSize := lt_of_le_of_lt hin.1 hin.2.1
    exact_mod_cast this
  obtain ⟨f, rfl⟩ : ∃ f, gridSize = f + 1 := ⟨gridSize - 1, by omega⟩
  have hray := raycastLoop_first_blocked (f + 1) cats id cat
    (getDelta cat.direction).dx (getDelta cat.direction).dy f hin hobs
  simp only [resolveMove, hfind, hget, hex, Bool.false_eq_true, if_false]
  rw [hray]
  rw [if_pos]
  constructor
  · simp [rayPos]
  · simp [rayPos]

/-- Witness for C4: the spec scenario — 8x8 grid, piece A at head (3,3) facing RIGHT,
piece B occupying (5,3) and (4,3); resolveMove on A is a no-op because the first step
(4,3) is occupied by B's tail. -/
theorem resolveMove_noop_witness : resolveMove 8 [catW1, catW2] 0 = [catW1, catW2] :=
  resolveMove_noop_first_blocked 8 [catW1, catW2] 0 0 catW1
    (by decide) (by decide) (by decide) (by decide) (by decide)

/-! ## Characterization of the placement inner loop -/

/-- What a successful `tryDirections` returns: the cat built from some direction of the
list whose tail candidate is in-bounds and unoccupied. -/
lemma tryDirections_spec (gridSize : ℕ) (cell : Cell) (occupied : List Cell)
    (isBomb : Bool) (skin : String) (newId : ℕ) :
    ∀ dirs cat, tryDirections gridSize cell occupied isBomb skin newId dirs = some cat →
      ∃ dir ∈ dirs,
        cat = { id := newId, x := cell.1 - (getDelta dir).dx, y := cell.2 - (getDelta dir).dy,
                direction := getOppositeDir dir,
                type := if isBomb then CatType.BOMB else CatType.NORMAL,
                timer := if isBomb then some BOMB_TIME_SECONDS else none,
                color := skin, isExited := false, isMoving := false } ∧
        isValid (cell.1 - (getDelta dir).dx) (cell.2 - (getDelta dir).dy) gridSize = true ∧
        (cell.1 - (getDelta dir).dx, cell.2 - (getDelta dir).dy) ∉ occupied := by
  intro dirs
  induction dirs with
  | nil => intro cat h; exact absurd h (by simp [tryDirections])
  | cons dir rest ih =>
    intro cat h
    rw [tryDirections] at h
    by_cases hc : isValid (cell.1 - (getDelta dir).dx) (cell.2 - (getDelta dir).dy) gridSize
        && !(decide ((cell.1 - (getDelta dir).dx, cell.2 - (getDelta dir).dy) ∈ occupied))
    · rw [if_pos hc] at h
      rcases Bool.and_eq_true_iff.mp hc with ⟨hval, hnotmem⟩
      refine ⟨dir, List.mem_cons_self dir rest, ?_, hval, ?_⟩
      · exact (Option.some_injective _ h).symm
      · intro hmem
        rw [Bool.not_eq_true', decide_eq_false_iff_not] at hnotmem
        exact hnotmem hmem
    · rw [if_neg hc] at h
      obtain ⟨dir2, hdir2, rest2⟩ := ih cat h
      exact ⟨dir2, List.mem_cons_of_mem dir hdir2, rest2⟩

/-- With bomb chance 0 and non-negative bomb draws, the placement walk only produces
NORMAL cats. -/
lemma placeCats_all_normal (o : GenOracle) (gridSize : ℕ) (skins : List String)
    (target : ℤ) (hb : ∀ k, 0 ≤ o.bombRand k) :
    ∀ cells idx cats occupied,
      (∀ c ∈ cats, c.type = CatType.NORMAL) →
      ∀ c ∈ placeCats o gridSize 0 skins target cells idx cats occupied,
        c.type = CatType.NORMAL := by
  intro cells
  induction cells with
  | nil => intro idx cats occupied hcats; simpa [placeCats] using hcats
  | cons cell rest ih =>
    intro idx cats occupied hcats
    rw [placeCats]
    by_cases htarget : target ≤ (cats.length : ℤ)
    · rw [if_pos htarget]; exact hcats
    · rw [if_neg htarget]
      by_cases hocc : cell ∈ occupied
      · rw [if_pos hocc]; exact ih (idx + 1) cats occupied hcats
      · rw [if_neg hocc]
        have hbomb : decide (o.bombRand cats.length < (0:ℚ)) = false := by
          simp [not_lt.mpr (hb cats.length)]
        rcases htry : tryDirections gridSize cell occupied
            (decide (o.bombRand cats.length < (0:ℚ)))
            (skins.getD ((o.skinRand cats.length * skins.length).floor.toNat) "")
            (o.idAt cats.length) (o.dirsAt idx) with hnone | ⟨cat⟩
        · simp only [htry]
          exact ih (idx + 1) cats occupied hcats
        · simp only [htry]
          apply ih (idx + 1)
          intro c hc
          rcases List.mem_append.mp hc with hold | hnew
          · exact hcats c hold
          · obtain ⟨dir, _, hcat, _, _⟩ :=
              tryDirections_spec gridSize cell occupied _ _ _ _ cat htry
            rw [List.mem_singleton.mp hnew, hcat, hbomb]
            rfl

/-! ## Claim C9: the difficulty curve -/

/-- C9: the level configuration is a deterministic step function of the level number:
grid size steps 8, 9, 10, 11 at thresholds (5, 10, 20); palette size equals
min(paletteMax, 2 + floor((level - 1)/3)); bomb probability steps 0, 0.05, 0.10, 0.15 at
thresholds (5, 15, 30); an unlock message is attached exactly at levels 1 and 5.  In
particular, generateLevel at level 1 returns gridSize = 8, the level-1 unlock message, and
zero bomb pieces. -/
theorem levelConfig_curve (o : GenOracle) (hb : ∀ k, 0 ≤ o.bombRand k) :
    (∀ level, (getLevelConfig level).size =
        if 20 ≤ level then 11 else if 10 ≤ level then 10 else if 5 ≤ level then 9 else 8) ∧
    (∀ level, (getLevelConfig level).skinCount
        = min CAT_SKINS.length (2 + (level - 1) / 3)) ∧
    (∀ level, (getLevelConfig level).bombChance =
        if 30 ≤ level then 0.15 else if 15 ≤ level then 0.10
        else if 5 ≤ level then 0.05 else 0) ∧
    (∀ level, (getLevelConfig level).unlockMsg =
        if level = 1 then some "Tap cats to clear!"
        else if level = 5 then some "⚠️ Bomb Cats & Bigger Grid!" else none) ∧
    (generateLevel o 1).gridSize = 8 ∧
    (generateLevel o 1).unlockedMessage = some "Tap cats to clear!" ∧
    ∀ c ∈ (generateLevel o 1).cats, c.type = CatType.NORMAL := by
  refine ⟨fun level => rfl, fun level => rfl, fun level => rfl, fun level => rfl,
    rfl, rfl, ?_⟩
  intro c hc
  have hc2 := (List.perm_insertionSort catLeP _).mem_iff.mp hc
  exact placeCats_all_normal o _ _ _ hb o.cells 0 [] []
    (fun c hmem => absurd hmem (List.not_mem_nil c)) c hc2

/-- A simple well-formed generation oracle used by witnesses (identity-like draws). -/
def stdOracle : GenOracle :=
  { emptyRand := 0
    cells := List.insertionSort (distLeP 8) (allCells 8)
    dirsAt := fun _ => [Direction.UP, Direction.DOWN, Direction.LEFT, Direction.RIGHT]
    bombRand := fun _ => 0
    skinRand := fun _ => 0
    idAt := fun n => n }

/-- Witness for C9: the concrete scenario at level 1 with a concrete oracle. -/
theorem levelConfig_curve_witness :
    (generateLevel stdOracle 1).gridSize = 8 ∧
    (generateLevel stdOracle 1).unlockedMessage = some "Tap cats to clear!" :=
  ⟨(levelConfig_curve stdOracle fun _ => le_refl 0).2.2.2.2.1,
   (levelConfig_curve stdOracle fun _ => le_refl 0).2.2.2.2.2.1⟩

/-! ## Claim C2: the density bound -/

/-- The grid size is one of 8, 9, 10, 11. -/
lemma size_cases (level : ℕ) :
    (getLevelConfig level).size = 8 ∨ (getLevelConfig level).size = 9 ∨
    (getLevelConfig level).size = 10 ∨ (getLevelConfig level).size = 11 := by
  have h : (getLevelConfig level).size
      = if 20 ≤ level then 11 else if 10 ≤ level then 10
        else if 5 ≤ level then 9 else 8 := rfl
  rw [h]
  split_ifs <;> simp

/-- The placement walk never places more cats than the target (the walk re-checks the
break condition before every placement). -/
lemma placeCats_length_le (o : GenOracle) (gridSize : ℕ) (bombChance : ℚ)
    (skins : List String) (target : ℤ) :
    ∀ cells idx cats occupied,
      ((placeCats o gridSize bombChance skins target cells idx cats occupied).length : ℤ)
        ≤ max (cats.length : ℤ) target := by
  intro cells
  induction cells with
  | nil => intro idx cats occupied; simp [placeCats]
  | cons cell rest ih =>
    intro idx cats occupied
    rw [placeCats]
    by_cases htarget : target ≤ (cats.length : ℤ)
    · rw [if_pos htarget]; exact le_max_left _ _
    · rw [if_neg htarget]
      push_neg at htarget
      by_cases hocc : cell ∈ occupied
      · rw [if_pos hocc]; exact ih (idx + 1) cats occupied
      · rw [if_neg hocc]
        rcases htry : tryDirections gridSize cell occupied
            (decide (o.bombRand cats.length < bombChance))
            (skins.getD ((o.skinRand cats.length * skins.length).floor.toNat) "")
            (o.idAt cats.length) (o.dirsAt idx) with hnone | ⟨cat⟩
        · simp only [htry]; exact ih (idx + 1) cats occupied
        · simp only [htry]
          calc ((placeCats o gridSize bombChance skins target rest (idx + 1)
                  (cats ++ [cat]) (occupied ++ [cell, (cat.x, cat.y)])).length : ℤ)
              ≤ max ((cats ++ [cat]).length : ℤ) target := ih (idx + 1) _ _
            _ ≤ max (cats.length : ℤ) target := by
                simp only [List.length_append, List.length_singleton]
                push_cast
                omega

/-- The cat count of a generated level is at most the target count. -/
lemma generateLevel_count_le (o : GenOracle) (level : ℕ) :
    ((generateLevel o level).cats.length : ℤ)
      ≤ max 0 ((((getLevelConfig level).size : ℤ) * (getLevelConfig level).size
          - ((o.emptyRand * (10 - 2 + 1)).floor + 2)) / 2) := by
  have h1 : (generateLevel o level).cats.length
      = (placeCats o (getLevelConfig level).size (getLevelConfig level).bombChance
          (CAT_SKINS.take (getLevelConfig level).skinCount)
          ((((getLevelConfig level).size : ℤ) * (getLevelConfig level).size
            - ((o.emptyRand * (10 - 2 + 1)).floor + 2)) / 2) o.cells 0 [] []).length :=
    List.length_insertionSort catLeP _
  rw [h1]
  simpa using placeCats_length_le o (getLevelConfig level).size
    (getLevelConfig level).bombChance (CAT_SKINS.take (getLevelConfig level).skinCount)
    _ o.cells 0 [] []

/-- Bounds on the random empty-slot budget: for a draw in `[0, 1)` it lies in `[2, 10]`. -/
lemma emptySlots_bounds (r : ℚ) (hr0 : 0 ≤ r) (hr1 : r < 1) :
    2 ≤ (r * (10 - 2 + 1)).floor + 2 ∧ (r * (10 - 2 + 1)).floor + 2 ≤ 10 := by
  have hfl : ∀ q : ℚ, q.floor = ⌊q⌋ := fun _ => rfl
  constructor
  · have h0 : (0:ℤ) ≤ ⌊r * (10 - 2 + 1)⌋ := by
      apply Int.floor_nonneg.mpr
      positivity
    rw [hfl]
    omega
  · have h9 : ⌊r * (10 - 2 + 1)⌋ < 9 := by
      apply Int.floor_lt.mpr
      push_cast
      nlinarith
    rw [hfl]
    omega

/-- C2 (amended): for every generated level, `gridSize² - 2 × pieceCount` is at least 2
and the piece count never exceeds the target `(gridSize² - emptySlots) / 2`; when the
target is reached, `gridSize² - 2 × pieceCount` is at most 11 (not 10: on an odd-sized
grid with an odd `gridSize² - emptySlots` the floor division leaves one extra empty
cell, so the range of the reached case is `[2, 11]`). -/
theorem density_bound (o : GenOracle) (level : ℕ)
    (hr0 : 0 ≤ o.emptyRand) (hr1 : o.emptyRand < 1) :
    2 ≤ ((generateLevel o level).gridSize : ℤ) * (generateLevel o level).gridSize
        - 2 * (generateLevel o level).cats.length ∧
    ((generateLevel o level).cats.length : ℤ)
      ≤ (((generateLevel o level).gridSize : ℤ) * (generateLevel o level).gridSize
          - ((o.emptyRand * (10 - 2 + 1)).floor + 2)) / 2 ∧
    (((generateLevel o level).cats.length : ℤ)
        = (((generateLevel o level).gridSize : ℤ) * (generateLevel o level).gridSize
            - ((o.emptyRand * (10 - 2 + 1)).floor + 2)) / 2 →
      ((generateLevel o level).gridSize : ℤ) * (generateLevel o level).gridSize
          - 2 * (generateLevel o level).cats.length ≤ 11) := by
  have hg : (generateLevel o level).gridSize = (getLevelConfig level).size := rfl
  obtain ⟨he2, he10⟩ := emptySlots_bounds o.emptyRand hr0 hr1
  have hcount := generateLevel_count_le o level
  rw [hg]
  rcases size_cases level with hs | hs | hs | hs <;> rw [hs] at hcount ⊢ <;>
    · rw [max_eq_right (by omega)] at hcount
      refine ⟨by omega, by omega, fun h => by omega⟩

/-- Witness for the amended C2 at the concrete oracle `stdOracle`, level 1. -/
theorem density_bound_witness :
    2 ≤ ((generateLevel stdOracle 1).gridSize : ℤ) * (generateLevel stdOracle 1).gridSize
        - 2 * (generateLevel stdOracle 1).cats.length :=
  (density_bound stdOracle 1 (by norm_num [stdOracle]) (by norm_num [stdOracle])).1

instance (gridSize : ℕ) : IsTotal Cell (distLeP gridSize) :=
  ⟨fun a b => le_total (dist2 gridSize a) (dist2 gridSize b)⟩

instance (gridSize : ℕ) : IsTrans Cell (distLeP gridSize) :=
  ⟨fun _ _ _ hab hbc => le_trans hab hbc⟩

instance : IsTotal CatEntity catLeP := by
  constructor
  intro a b
  rcases lt_trichotomy a.y b.y with h | h | h
  · exact Or.inl (Or.inl h)
  · rcases le_total a.x b.x with hx | hx
    · exact Or.inl (Or.inr ⟨h, hx⟩)
    · exact Or.inr (Or.inr ⟨h.symm, hx⟩)
  · exact Or.inr (Or.inl h)

instance : IsTrans CatEntity catLeP := by
  constructor
  rintro a b c (hab | ⟨hab, hab2⟩) (hbc | ⟨hbc, hbc2⟩)
  · exact Or.inl (lt_trans hab hbc)
  · exact Or.inl (hbc ▸ hab)
  · exact Or.inl (hab ▸ hbc)
  · exact Or.inr ⟨hab.trans hbc, hab2.trans hbc2⟩

/-- The oracle exhibiting the counterexample to C2 as stated: grid 9x9 (level 5),
empty-slot draw 15/16 (so emptySlots = 10, target = (81 - 10) / 2 = 35), center-out cell
order, fixed direction priority, no bombs drawn. -/
def exOracle : GenOracle :=
  { emptyRand := 15/16
    cells := List.insertionSort (distLeP 9) (allCells 9)
    dirsAt := fun _ => [Direction.UP, Direction.DOWN, Direction.LEFT, Direction.RIGHT]
    bombRand := fun _ => 1/2
    skinRand := fun _ => 0
    idAt := fun n => n }

lemma exOracle_wf : exOracle.WF 9 := by
  refine ⟨?_, ?_, List.perm_insertionSort (distLeP 9) (allCells 9),
    List.sorted_insertionSort (distLeP 9) (allCells 9),
    fun k => List.Perm.refl _, fun k => ⟨?_, ?_⟩, fun k => ⟨?_, ?_⟩, fun a b h => h⟩
  · show (0:ℚ) ≤ 15/16
    norm_num
  · show (15/16:ℚ) < 1
    norm_num
  · show (0:ℚ) ≤ 1/2
    norm_num
  · show (1/2:ℚ) < 1
    norm_num
  · show (0:ℚ) ≤ 0
    norm_num
  · show (0:ℚ) < 1
    norm_num

set_option maxRecDepth 1000000 in
set_option maxHeartbeats 4000000 in
/-- Counterexample to C2 as stated: a well-formed run of generateLevel at level 5 (grid
9x9) in which the placement loop reaches its target of 35 pieces, yet
gridSize² - 2 × pieceCount = 81 - 70 = 11, outside the claimed range [2, 10]. -/
theorem density_counterexample :
    exOracle.WF 9 ∧
    (generateLevel exOracle 5).gridSize = 9 ∧
    (generateLevel exOracle 5).cats.length = 35 ∧
    ¬ (((generateLevel exOracle 5).gridSize : ℤ) * (generateLevel exOracle 5).gridSize
        - 2 * (generateLevel exOracle 5).cats.length ≤ 10) :=
  ⟨exOracle_wf, by decide, by decide, by decide⟩

/-! ## Claim C7: hint correctness -/

/-- The hint scan's blocked test over the pre-filtered active list computes exactly the
move resolver's obstacle test over the full list (with the scanning cat's own id). -/
lemma hintBlocked_eq (cats : List CatEntity) (cat : CatEntity) (nx ny : ℚ) :
    hintBlocked (cats.filter fun c => !c.isExited) cat nx ny
      = obstacleAt cats cat.id nx ny := by
  rw [hintBlocked, obstacleAt, List.any_filter]
  congr 1
  funext c
  by_cases hex : c.isExited <;> by_cases hid : c.id == cat.id <;>
    simp [hex, hid]

/-- The exit flag that the move resolver's raycast computes for a cat right now. -/
def ExitsNow (gridSize : ℕ) (cats : List CatEntity) (cat : CatEntity) : Prop :=
  (raycastLoop gridSize cats cat.id cat
    (getDelta cat.direction).dx (getDelta cat.direction).dy
    gridSize 1 cat.x cat.y).2.2 = true

instance (gridSize : ℕ) (cats : List CatEntity) (cat : CatEntity) :
    Decidable (ExitsNow gridSize cats cat) :=
  inferInstanceAs (Decidable (_ = true))

/-- The hint scan's path loop returns exactly the exit flag of the resolver's raycast. -/
lemma canExitLoop_eq_raycast (gridSize : ℕ) (cats : List CatEntity) (cat : CatEntity)
    (dx dy : ℚ) :
    ∀ fuel step tx ty,
      canExitLoop (cats.filter fun c => !c.isExited) gridSize cat dx dy fuel step
        = (raycastLoop gridSize cats cat.id cat dx dy fuel step tx ty).2.2 := by
  intro fuel
  induction fuel with
  | zero => intro step tx ty; rfl
  | succ f ih =>
    intro step tx ty
    rw [canExitLoop, raycastLoop]
    by_cases hoob : cat.x + dx * step < 0 ∨ (gridSize : ℚ) ≤ cat.x + dx * step ∨
        cat.y + dy * step < 0 ∨ (gridSize : ℚ) ≤ cat.y + dy * step
    · rw [if_pos hoob, if_pos hoob]
    · rw [if_neg hoob, if_neg hoob]
      by_cases hobs : obstacleAt cats cat.id (cat.x + dx * step) (cat.y + dy * step) = true
      · rw [if_pos, if_pos hobs]
        rw [hintBlocked_eq]
        exact hobs
      · rw [if_neg, if_neg hobs]
        · exact ih (step + 1) _ _
        · rw [hintBlocked_eq]
          exact hobs

/-- The hint scan's per-cat qualification equals the resolver's exit flag. -/
lemma canExit_iff_exitsNow (gridSize : ℕ) (cats : List CatEntity) (cat : CatEntity) :
    canExit (cats.filter fun c => !c.isExited) gridSize cat = true
      ↔ ExitsNow gridSize cats cat := by
  rw [canExit, ExitsNow]
  rw [canExitLoop_eq_raycast gridSize cats cat _ _ gridSize 1 cat.x cat.y]

/-- A successful `find?` splits the list into unqualified prefix, hit, and rest. -/
lemma find?_some_split {α : Type} {p : α → Bool} :
    ∀ {l : List α} {a : α}, l.find? p = some a →
      ∃ l1 l2, l = l1 ++ a :: l2 ∧ (∀ b ∈ l1, p b = false) ∧ p a = true := by
  intro l
  induction l with
  | nil => intro a h; exact absurd h (by simp)
  | cons b t ih =>
    intro a h
    rw [List.find?_cons] at h
    cases hpb : p b
    · simp only [hpb] at h
      obtain ⟨l1, l2, heq, hpref, hpa⟩ := ih h
      exact ⟨b :: l1, l2, by rw [heq]; rfl,
        fun x hx => by
          rcases List.mem_cons.mp hx with rfl | hx2
          · exact hpb
          · exact hpref x hx2, hpa⟩
    · simp only [hpb] at h
      obtain rfl : b = a := Option.some_injective _ h
      exact ⟨[], t, rfl, fun x hx => absurd hx (List.not_mem_nil x), hpb⟩

/-- C7: findHint never returns a piece whose raycast (per the Move Resolver's semantics)
is obstructed before reaching the grid boundary; it returns the first active piece in
list order whose ray reaches the boundary with zero obstructions, or none if no active
piece qualifies. -/
theorem findHint_correct (cats : List CatEntity) (gridSize : ℕ) :
    (∀ c, findHint cats gridSize = some c →
      ∃ l1 l2, cats.filter (fun c => !c.isExited) = l1 ++ c :: l2 ∧
        ExitsNow gridSize cats c ∧
        ∀ b ∈ l1, ¬ ExitsNow gridSize cats b) ∧
    (findHint cats gridSize = none →
      ∀ c ∈ cats, c.isExited = false → ¬ ExitsNow gridSize cats c) := by
  constructor
  · intro c hc
    obtain ⟨l1, l2, heq, hpref, hpa⟩ := find?_some_split hc
    refine ⟨l1, l2, heq, (canExit_iff_exitsNow gridSize cats c).mp hpa, ?_⟩
    intro b hb
    have hbmem : b ∈ cats.filter fun c => !c.isExited := by
      rw [heq]
      exact List.mem_append.mpr (Or.inl hb)
    rw [← canExit_iff_exitsNow gridSize cats b]
    rw [hpref b hb]
    simp
  · intro hnone c hmem hex
    have hcf : c ∈ cats.filter fun c => !c.isExited :=
      List.mem_filter.mpr ⟨hmem, by rw [hex]; rfl⟩
    have := List.find?_eq_none.mp hnone c hcf
    rw [← canExit_iff_exitsNow gridSize cats c]
    simpa using this

/-- Witness for C7: on the single-piece board of the C3 scenario, findHint returns that
piece, and its ray indeed exits. -/
theorem findHint_correct_witness :
    ∃ l1 l2, [catW3].filter (fun c => !c.isExited) = l1 ++ catW3 :: l2 ∧
      ExitsNow 8 [catW3] catW3 ∧
      ∀ b ∈ l1, ¬ ExitsNow 8 [catW3] b :=
  (findHint_correct [catW3] 8).1 catW3 (by decide)

/-! ## Characterization of the shuffle inner loops -/

/-- What a successful `tryShufDirections` returns: the old cat re-homed at the cell with
some direction of the list whose tail candidate is in-bounds and unoccupied. -/
lemma tryShufDirections_spec (gridSize : ℕ) (cell : Cell) (occupied : List Cell)
    (oldCat : CatEntity) :
    ∀ dirs newCat, tryShufDirections gridSize cell occupied oldCat dirs = some newCat →
      ∃ dir ∈ dirs,
        newCat = { oldCat with
          x := cell.1, y := cell.2, direction := dir, isMoving := false } ∧
        isValid (cell.1 - (getDelta dir).dx) (cell.2 - (getDelta dir).dy) gridSize = true ∧
        (cell.1 - (getDelta dir).dx, cell.2 - (getDelta dir).dy) ∉ occupied := by
  intro dirs
  induction dirs with
  | nil => intro newCat h; exact absurd h (by simp [tryShufDirections])
  | cons dir rest ih =>
    intro newCat h
    rw [tryShufDirections] at h
    by_cases hc : isValid (cell.1 - (getDelta dir).dx) (cell.2 - (getDelta dir).dy) gridSize
        && !(decide ((cell.1 - (getDelta dir).dx, cell.2 - (getDelta dir).dy) ∈ occupied))
    · rw [if_pos hc] at h
      rcases Bool.and_eq_true_iff.mp hc with ⟨hval, hnotmem⟩
      refine ⟨dir, List.mem_cons_self dir rest, (Option.some_injective _ h).symm, hval, ?_⟩
      intro hmem
      rw [Bool.not_eq_true', decide_eq_false_iff_not] at hnotmem
      exact hnotmem hmem
    · rw [if_neg hc] at h
      obtain ⟨dir2, hdir2, rest2⟩ := ih newCat h
      exact ⟨dir2, List.mem_cons_of_mem dir hdir2, rest2⟩

/-- What a successful `findSpot` returns: a re-homing of the old cat at some unoccupied
cell of the scanned list, with an in-bounds unoccupied tail. -/
lemma findSpot_spec (o : ShufOracle) (gridSize : ℕ) (catIdx : ℕ) (oldCat : CatEntity)
    (occupied : List Cell) :
    ∀ cells cellIdx newCat,
      findSpot o gridSize catIdx oldCat occupied cells cellIdx = some newCat →
      ∃ cell ∈ cells, ∃ dir,
        cell ∉ occupied ∧
        newCat = { oldCat with
          x := cell.1, y := cell.2, direction := dir, isMoving := false } ∧
        isValid (cell.1 - (getDelta dir).dx) (cell.2 - (getDelta dir).dy) gridSize = true ∧
        (cell.1 - (getDelta dir).dx, cell.2 - (getDelta dir).dy) ∉ occupied := by
  intro cells
  induction cells with
  | nil => intro cellIdx newCat h; exact absurd h (by simp [findSpot])
  | cons cell rest ih =>
    intro cellIdx newCat h
    rw [findSpot] at h
    by_cases hocc : cell ∈ occupied
    · rw [if_pos hocc] at h
      obtain ⟨cell2, hcell2, rest2⟩ := ih (cellIdx + 1) newCat h
      exact ⟨cell2, List.mem_cons_of_mem cell hcell2, rest2⟩
    · rw [if_neg hocc] at h
      rcases htry : tryShufDirections gridSize cell occupied oldCat
          (o.dirsAt catIdx cellIdx) with hnone | ⟨cat2⟩
      · rw [htry] at h
        obtain ⟨cell2, hcell2, rest2⟩ := ih (cellIdx + 1) newCat h
        exact ⟨cell2, List.mem_cons_of_mem cell hcell2, rest2⟩
      · rw [htry] at h
        have heq : cat2 = newCat := Option.some_injective _ h
        obtain ⟨dir, _, hcat, hval, htail⟩ :=
          tryShufDirections_spec gridSize cell occupied oldCat _ cat2 htry
        exact ⟨cell, List.mem_cons_self cell rest, dir, hocc, heq ▸ hcat, hval, htail⟩

/-- Every cat placed by the shuffle walk keeps `isExited = false` when all the cats fed
into it are active. -/
lemma shufLoop_all_active (o : ShufOracle) (gridSize : ℕ) :
    ∀ olds catIdx acc occupied,
      (∀ c ∈ acc, c.isExited = false) →
      (∀ c ∈ olds, c.isExited = false) →
      ∀ c ∈ shufLoop o gridSize olds catIdx acc occupied, c.isExited = false := by
  intro olds
  induction olds with
  | nil => intro catIdx acc occupied hacc _; simpa [shufLoop] using hacc
  | cons oldCat rest ih =>
    intro catIdx acc occupied hacc holds
    rw [shufLoop]
    rcases hspot : findSpot o gridSize catIdx oldCat occupied o.cells 0
        with hnone | ⟨newCat⟩
    · exact ih (catIdx + 1) acc occupied hacc
        (fun c hc => holds c (List.mem_cons_of_mem oldCat hc))
    · apply ih (catIdx + 1)
      · intro c hc
        rcases List.mem_append.mp hc with hc1 | hc2
        · exact hacc c hc1
        · obtain ⟨_, _, _, _, hcat, _, _⟩ :=
            findSpot_spec o gridSize catIdx oldCat occupied o.cells 0 newCat hspot
          rw [List.mem_singleton.mp hc2, hcat]
          exact holds oldCat (List.mem_cons_self oldCat rest)
      · exact fun c hc => holds c (List.mem_cons_of_mem oldCat hc)

/-! ## Claim C8: exit monotonicity -/

/-- Moving a cat never touches the entries at other indices; an exited entry at index i
is never the moved one. -/
lemma resolveMove_preserves_exited (gridSize : ℕ) (cats : List CatEntity) (id : ℕ)
    (i : ℕ) (hi : i < cats.length) (hex : (cats.get ⟨i, hi⟩).isExited = true) :
    (resolveMove gridSize cats id)[i]? = some (cats.get ⟨i, hi⟩) := by
  have hbase : cats[i]? = some (cats.get ⟨i, hi⟩) := by
    rw [List.getElem?_eq_getElem hi]
    rfl
  rw [resolveMove]
  rcases hfind : cats.findIdx? (fun c => c.id == id) with _ | j
  · simp only [hfind]
    exact hbase
  · simp only [hfind]
    rcases hget : cats[j]? with _ | cat
    · simp only [hget]
      exact hbase
    · simp only [hget]
      by_cases hexj : cat.isExited
      · rw [if_pos hexj]
        exact hbase
      · rw [if_neg hexj]
        by_cases hno : (raycastLoop gridSize cats id cat (getDelta cat.direction).dx
              (getDelta cat.direction).dy gridSize 1 cat.x cat.y).1 = cat.x ∧
            (raycastLoop gridSize cats id cat (getDelta cat.direction).dx
              (getDelta cat.direction).dy gridSize 1 cat.x cat.y).2.1 = cat.y
        · rw [if_pos hno]
          exact hbase
        · rw [if_neg hno]
          have hji : j ≠ i := by
            intro heqji
            subst heqji
            rw [hbase] at hget
            obtain rfl : cats.get ⟨j, hi⟩ = cat := Option.some_injective _ hget
            rw [hex] at hexj
            exact hexj rfl
          rw [List.getElem?_set_ne hji]
          exact hbase

/-- C8: exit monotonicity — an exited piece is never modified, moved, or revived by
resolveMove, flipAll, the bomb tick, or shuffleCats; only originally exited pieces appear
exited in a shuffle result; exited pieces are not counted as obstructions in the
raycast's collision checks; and findHint never returns an exited piece. -/
theorem exit_monotone (gridSize : ℕ) (cats : List CatEntity) (i : ℕ)
    (hi : i < cats.length) (hex : (cats.get ⟨i, hi⟩).isExited = true) :
    (∀ id, (resolveMove gridSize cats id)[i]? = some (cats.get ⟨i, hi⟩)) ∧
    ((flipAll cats)[i]? = some (cats.get ⟨i, hi⟩)) ∧
    ((tickCats cats).1[i]? = some (cats.get ⟨i, hi⟩)) ∧
    (∀ o g2, cats.get ⟨i, hi⟩ ∈ shuffleCats o cats g2) ∧
    (∀ o g2 c, c ∈ shuffleCats o cats g2 → c.isExited = true →
      c ∈ cats.filter fun d => d.isExited) ∧
    (∀ id nx ny, obstacleAt cats id nx ny
      = obstacleAt (cats.filter fun c => !c.isExited) id nx ny) ∧
    (∀ g2, findHint cats g2 ≠ some (cats.get ⟨i, hi⟩)) := by
  have hbase : cats[i]? = some (cats.get ⟨i, hi⟩) := by
    rw [List.getElem?_eq_getElem hi]
    rfl
  refine ⟨fun id => resolveMove_preserves_exited gridSize cats id i hi hex, ?_, ?_, ?_,
    ?_, ?_, ?_⟩
  · rw [flipAll, List.getElem?_map, hbase]
    simp only [Option.map_some']
    rw [flipCat_exited hex]
  · show (cats.map _)[i]? = _
    rw [List.getElem?_map, hbase]
    simp only [Option.map_some']
    have hex2 : cats[i].isExited = true := hex
    rcases ht : (cats.get ⟨i, hi⟩).timer with _ | t <;> simp_all
  · intro o g2
    rw [shuffleCats]
    rw [(List.perm_insertionSort catLeP _).mem_iff]
    apply List.mem_append.mpr
    left
    exact List.mem_filter.mpr ⟨List.get_mem cats i hi, hex⟩
  · intro o g2 c hc hcex
    rw [shuffleCats] at hc
    rw [(List.perm_insertionSort catLeP _).mem_iff] at hc
    rcases List.mem_append.mp hc with h1 | h2
    · exact h1
    · have := shufLoop_all_active o g2 (cats.filter fun c => !c.isExited) 0 [] []
        (fun c hc => absurd hc (List.not_mem_nil c))
        (fun c hc => by simpa using (List.mem_filter.mp hc).2) c h2
      rw [hcex] at this
      cases this
  · intro id nx ny
    rw [obstacleAt, obstacleAt, List.any_filter]
    congr 1
    funext c
    by_cases hcex : c.isExited <;> simp [hcex]
  · intro g2 hfind
    have hmem := List.mem_of_find?_eq_some hfind
    have := (List.mem_filter.mp hmem).2
    rw [hex] at this
    cases this

/-- A simple well-formed shuffle oracle used by witnesses. -/
def stdShufOracle : ShufOracle :=
  { cells := List.insertionSort (distLeP 8) (allCells 8)
    dirsAt := fun _ _ => [Direction.UP, Direction.DOWN, Direction.LEFT, Direction.RIGHT] }

/-- Witness for C8 on a concrete two-piece list with an exited piece at index 1. -/
theorem exit_monotone_witness :
    (resolveMove 8 [catW1, catWExited] 0)[1]?
        = some ([catW1, catWExited].get ⟨1, by decide⟩) ∧
    ([catW1, catWExited].get ⟨1, by decide⟩) ∈
      shuffleCats stdShufOracle [catW1, catWExited] 8 :=
  ⟨(exit_monotone 8 [catW1, catWExited] 1 (by decide) (by decide)).1 0,
   (exit_monotone 8 [catW1, catWExited] 1 (by decide) (by decide)).2.2.2.1
     stdShufOracle 8⟩

/-! ## Claim C6: the frame effect of shuffleCats -/

/-- A re-placed cat keeps id, kind, timer, variant and exited flag; its moving flag is
cleared.  Only head and direction may differ. -/
def SameCore (old new : CatEntity) : Prop :=
  new.id = old.id ∧ new.type = old.type ∧ new.timer = old.timer ∧
  new.color = old.color ∧ new.isExited = old.isExited ∧ new.isMoving = false

/-- The shuffle walk appends to its accumulator one re-homed cat per placed input cat,
in input order, silently skipping the cats it cannot place. -/
lemma shufLoop_frame (o : ShufOracle) (gridSize : ℕ) :
    ∀ olds catIdx acc occupied,
      ∃ kept newOnes, kept.Sublist olds ∧ List.Forall₂ SameCore kept newOnes ∧
        shufLoop o gridSize olds catIdx acc occupied = acc ++ newOnes := by
  intro olds
  induction olds with
  | nil =>
    intro catIdx acc occupied
    exact ⟨[], [], List.Sublist.refl [], List.Forall₂.nil, by simp [shufLoop]⟩
  | cons oldCat rest ih =>
    intro catIdx acc occupied
    rw [shufLoop]
    rcases hspot : findSpot o gridSize catIdx oldCat occupied o.cells 0
        with hnone | ⟨newCat⟩
    · obtain ⟨kept, newOnes, hsub, hall, heq⟩ := ih (catIdx + 1) acc occupied
      exact ⟨kept, newOnes, hsub.cons oldCat, hall, heq⟩
    · obtain ⟨kept, newOnes, hsub, hall, heq⟩ := ih (catIdx + 1) (acc ++ [newCat])
        (occupied ++ [headCell newCat, tailCell newCat])
      refine ⟨oldCat :: kept, newCat :: newOnes, hsub.cons₂ oldCat, ?_, ?_⟩
      · obtain ⟨_, _, _, _, hcat, _, _⟩ :=
          findSpot_spec o gridSize catIdx oldCat occupied o.cells 0 newCat hspot
        exact List.Forall₂.cons (by rw [hcat]; exact ⟨rfl, rfl, rfl, rfl, rfl, rfl⟩) hall
      · show shufLoop o gridSize rest (catIdx + 1) (acc ++ [newCat])
            (occupied ++ [headCell newCat, tailCell newCat]) = acc ++ newCat :: newOnes
        rw [heq]
        simp

/-- C6: shuffle returns a list in which every exited input piece appears unchanged, every
successfully re-placed active piece keeps its id, kind, timer, variant, and exited flag
(only head, direction, and the moving flag change), any active piece for which no
placement is found is silently dropped rather than raising an error, and the output is
the row-major sort of the exited pieces followed by the newly placed active pieces. -/
theorem shuffle_frame (o : ShufOracle) (cats : List CatEntity) (gridSize : ℕ) :
    ∃ kept newActive,
      kept.Sublist (cats.filter fun c => !c.isExited) ∧
      List.Forall₂ SameCore kept newActive ∧
      shuffleCats o cats gridSize
        = List.insertionSort catLeP ((cats.filter fun c => c.isExited) ++ newActive) ∧
      (∀ c ∈ cats, c.isExited = true → c ∈ shuffleCats o cats gridSize) ∧
      List.Sorted catLeP (shuffleCats o cats gridSize) := by
  obtain ⟨kept, newOnes, hsub, hall, heq⟩ :=
    shufLoop_frame o gridSize (cats.filter fun c => !c.isExited) 0 [] []
  refine ⟨kept, newOnes, hsub, hall, ?_, ?_, ?_⟩
  · rw [shuffleCats, heq]
    rfl
  · intro c hc hcex
    rw [shuffleCats]
    rw [(List.perm_insertionSort catLeP _).mem_iff]
    exact List.mem_append.mpr (Or.inl (List.mem_filter.mpr ⟨hc, hcex⟩))
  · rw [shuffleCats]
    exact List.sorted_insertionSort catLeP _

/-- Witness for C6: on a concrete list, the exited piece is in the shuffle output. -/
theorem shuffle_frame_witness :
    catWExited ∈ shuffleCats stdShufOracle [catW1, catWExited] 8 := by
  obtain ⟨_, _, _, _, _, hmem, _⟩ := shuffle_frame stdShufOracle [catW1, catWExited] 8
  exact hmem catWExited (by decide) (by decide)

/-! ## Integrality and geometry utilities (toward the reachability invariant) -/

lemma IsIntQ.add {a b : ℚ} (ha : IsIntQ a) (hb : IsIntQ b) : IsIntQ (a + b) := by
  obtain ⟨m, rfl⟩ := ha
  obtain ⟨n, rfl⟩ := hb
  exact ⟨m + n, by push_cast; ring⟩

lemma IsIntQ.sub {a b : ℚ} (ha : IsIntQ a) (hb : IsIntQ b) : IsIntQ (a - b) := by
  obtain ⟨m, rfl⟩ := ha
  obtain ⟨n, rfl⟩ := hb
  exact ⟨m - n, by push_cast; ring⟩

lemma IsIntQ.mul {a b : ℚ} (ha : IsIntQ a) (hb : IsIntQ b) : IsIntQ (a * b) := by
  obtain ⟨m, rfl⟩ := ha
  obtain ⟨n, rfl⟩ := hb
  exact ⟨m * n, by push_cast; ring⟩

lemma IsIntQ.natCast (n : ℕ) : IsIntQ (n : ℚ) := ⟨n, by push_cast; ring⟩

lemma delta_dx_int (d : Direction) : IsIntQ (getDelta d).dx := by
  cases d
  · exact ⟨0, by simp [getDelta]⟩
  · exact ⟨0, by simp [getDelta]⟩
  · exact ⟨-1, by simp [getDelta]⟩
  · exact ⟨1, by simp [getDelta]⟩

lemma delta_dy_int (d : Direction) : IsIntQ (getDelta d).dy := by
  cases d
  · exact ⟨-1, by simp [getDelta]⟩
  · exact ⟨1, by simp [getDelta]⟩
  · exact ⟨0, by simp [getDelta]⟩
  · exact ⟨0, by simp [getDelta]⟩

/-- Math.round is the identity on integers. -/
lemma jround_int {q : ℚ} (hq : IsIntQ q) : ((jround q : ℤ) : ℚ) = q := by
  obtain ⟨n, rfl⟩ := hq
  have h1 : jround (n : ℚ) = ⌊(n : ℚ) + 0.5⌋ := rfl
  rw [h1, show ((0.5 : ℚ)) = 1/2 by norm_num, Int.floor_int_add]
  norm_num

/-- The source's exit test is the negation of the in-bounds predicate. -/
lemma not_OOB_iff {gridSize : ℕ} {p : Cell} : ¬ OOB gridSize p ↔ InBounds gridSize p := by
  rw [OOB, InBounds]
  push_neg
  constructor
  · rintro ⟨h1, h2, h3, h4⟩
    exact ⟨h1, h2, h3, h4⟩
  · rintro ⟨h1, h2, h3, h4⟩
    exact ⟨h1, h2, h3, h4⟩

lemma isValid_iff {x y : ℚ} {gridSize : ℕ} :
    isValid x y gridSize = true ↔ InBounds gridSize (x, y) := by
  rw [isValid, InBounds]
  simp [and_assoc]

/-- Cells of the full grid list have integer coordinates and are in bounds. -/
lemma mem_allCells {gridSize : ℕ} {p : Cell} (hp : p ∈ allCells gridSize) :
    IsIntQ p.1 ∧ IsIntQ p.2 ∧ InBounds gridSize p := by
  simp [allCells] at hp
  obtain ⟨y, hy, qx, ⟨x, hx, rfl⟩, rfl⟩ := hp
  refine ⟨⟨(x:ℤ), by push_cast; ring⟩, ⟨(y:ℤ), by push_cast; ring⟩, ?_, ?_, ?_, ?_⟩
  · show (0:ℚ) ≤ (x:ℚ)
    positivity
  · show ((x:ℚ)) < (gridSize:ℚ)
    exact_mod_cast hx
  · show (0:ℚ) ≤ (y:ℚ)
    positivity
  · show ((y:ℚ)) < (gridSize:ℚ)
    exact_mod_cast hy

lemma getDelta_opposite (d : Direction) :
    (getDelta (getOppositeDir d)).dx = -(getDelta d).dx ∧
    (getDelta (getOppositeDir d)).dy = -(getDelta d).dy := by
  cases d <;> constructor <;> simp [getDelta, getOppositeDir]

lemma cellsDisjoint_symm {a b : CatEntity} (h : CellsDisjoint a b) : CellsDisjoint b a :=
  ⟨h.1.symm, h.2.2.1.symm, h.2.1.symm, h.2.2.2.symm⟩

lemma disjRel_symm : ∀ {a b : CatEntity}, DisjRel a b → DisjRel b a :=
  fun h hb ha => cellsDisjoint_symm (h ha hb)

lemma flipCat_id (c : CatEntity) : (flipCat c).id = c.id := by
  cases h : c.isExited
  · exact (flipCat_fields c h).2.2.2.1
  · rw [flipCat_exited h]

/-- A false obstacle test means no other non-exited integral cat occupies the cell. -/
lemma obstacle_false_spec {cats : List CatEntity} {id : ℕ} {p : Cell}
    (hobs : obstacleAt cats id p.1 p.2 = false) {c : CatEntity} (hc : c ∈ cats)
    (hcid : c.id ≠ id) (hcex : c.isExited = false) (hcint : IntCat c) :
    headCell c ≠ p ∧ tailCell c ≠ p := by
  have hbody := List.any_eq_false.mp hobs c hc
  rw [Bool.not_eq_true] at hbody
  have hidb : (c.id == id) = false := by
    rw [beq_eq_false_iff_ne]
    exact hcid
  rw [hidb, hcex] at hbody
  simp only [Bool.or_self, Bool.false_eq_true, if_false] at hbody
  by_cases hhead : (decide ((jround c.x : ℚ) = p.1) && decide ((jround c.y : ℚ) = p.2)) = true
  · rw [if_pos hhead] at hbody
    cases hbody
  · rw [if_neg hhead] at hbody
    constructor
    · intro heq
      apply hhead
      rw [jround_int hcint.1, jround_int hcint.2]
      rw [headCell] at heq
      rw [show p.1 = c.x from (congrArg Prod.fst heq).symm,
        show p.2 = c.y from (congrArg Prod.snd heq).symm]
      simp
    · intro heq
      have h1 : ((jround (c.x - (getDelta c.direction).dx) : ℤ) : ℚ)
          = c.x - (getDelta c.direction).dx :=
        jround_int (hcint.1.sub (delta_dx_int c.direction))
      have h2 : ((jround (c.y - (getDelta c.direction).dy) : ℤ) : ℚ)
          = c.y - (getDelta c.direction).dy :=
        jround_int (hcint.2.sub (delta_dy_int c.direction))
      rw [h1, h2] at hbody
      rw [tailCell] at heq
      rw [show p.1 = c.x - (getDelta c.direction).dx from (congrArg Prod.fst heq).symm,
        show p.2 = c.y - (getDelta c.direction).dy from (congrArg Prod.snd heq).symm] at hbody
      simp at hbody

/-! ## General characterization of the raycast loop -/

/-- Running the raycast loop from a position on the ray with a free prefix: either it
reports an exit, or it returns a ray position whose whole prefix of steps is free. -/
lemma raycastLoop_spec (gridSize : ℕ) (cats : List CatEntity) (id : ℕ) (cat : CatEntity)
    (dx dy : ℚ) :
    ∀ fuel step tx ty, 1 ≤ step →
      (tx, ty) = rayPos cat dx dy (step - 1) →
      (∀ j, 1 ≤ j → j < step → FreeStep gridSize cats id cat dx dy j) →
      ((raycastLoop gridSize cats id cat dx dy fuel step tx ty).2.2 = true ∨
       ∃ k, raycastLoop gridSize cats id cat dx dy fuel step tx ty
           = ((rayPos cat dx dy k).1, (rayPos cat dx dy k).2, false) ∧
         ∀ j, 1 ≤ j → j ≤ k → FreeStep gridSize cats id cat dx dy j) := by
  intro fuel
  induction fuel with
  | zero =>
    intro step tx ty hstep heq hfree
    right
    refine ⟨step - 1, ?_, fun j hj1 hj2 => hfree j hj1 (by omega)⟩
    rw [raycastLoop]
    rw [show tx = (rayPos cat dx dy (step - 1)).1 from congrArg Prod.fst heq,
      show ty = (rayPos cat dx dy (step - 1)).2 from congrArg Prod.snd heq]
  | succ f ih =>
    intro step tx ty hstep heq hfree
    rw [raycastLoop]
    by_cases hoob : cat.x + dx * step < 0 ∨ (gridSize : ℚ) ≤ cat.x + dx * step ∨
        cat.y + dy * step < 0 ∨ (gridSize : ℚ) ≤ cat.y + dy * step
    · rw [if_pos hoob]
      left
      rfl
    · rw [if_neg hoob]
      by_cases hobs : obstacleAt cats id (cat.x + dx * step) (cat.y + dy * step) = true
      · rw [if_pos hobs]
        right
        refine ⟨step - 1, ?_, fun j hj1 hj2 => hfree j hj1 (by omega)⟩
        have hcast : ((step - 1 : ℕ) : ℚ) = (step : ℚ) - 1 := by
          push_cast [Nat.cast_sub hstep]
          ring
        simp only [rayPos, hcast, Prod.mk.injEq]
        exact ⟨by ring, by ring, trivial⟩
      · rw [if_neg hobs]
        apply ih (step + 1)
        · omega
        · simp only [rayPos, Nat.add_sub_cancel]
        · intro j hj1 hj2
          by_cases hjs : j = step
          · subst hjs
            refine ⟨?_, ?_⟩
            · simp only [rayPos]
              exact hoob
            · simp only [rayPos]
              exact Bool.not_eq_true _ ▸ hobs
          · exact hfree j hj1 (by omega)

/-! ## Helpers for list surgery under the invariant -/

/-- The absolute index found by `findIdx?` is in range and satisfies the predicate. -/
lemma findIdx?_some_spec {α : Type} {p : α → Bool} :
    ∀ {l : List α} {i j : ℕ}, List.findIdx? p l i = some j →
      ∃ k, ∃ h : k < l.length, j = i + k ∧ p (l.get ⟨k, h⟩) = true := by
  intro l
  induction l with
  | nil => intro i j h; exact absurd h (by simp [List.findIdx?])
  | cons a t ih =>
    intro i j h
    rw [List.findIdx?] at h
    cases hpa : p a
    · rw [hpa] at h
      rw [if_neg (by simp)] at h
      obtain ⟨k, hk, hj, hp⟩ := ih h
      exact ⟨k + 1, by simpa using hk, by omega, hp⟩
    · rw [hpa] at h
      rw [if_pos rfl] at h
      obtain rfl : i = j := Option.some_injective _ h
      exact ⟨0, by simp, by omega, hpa⟩

/-- Replacing an entry by one with the same id leaves the id list unchanged. -/
lemma map_set_id_same (l : List CatEntity) (j : ℕ) (hj : j < l.length) (a : CatEntity)
    (hid : a.id = l[j].id) : (l.set j a).map CatEntity.id = l.map CatEntity.id := by
  apply List.ext_getElem
  · simp
  · intro i h1 h2
    rw [List.getElem_map, List.getElem_map]
    by_cases hij : j = i
    · subst hij
      rw [List.getElem_set_self (by simpa using hj)]
      exact hid
    · rw [List.getElem_set_ne hij]

/-- Replacing the entry at `j` by a cat with the same id that is valid and disjoint from
every other non-exited entry (vacuously when the new cat is exited) preserves the
invariant. -/
lemma gameInv_set (gridSize : ℕ) (cats : List CatEntity) (j : ℕ) (hj : j < cats.length)
    (a : CatEntity) (hInv : GameInv gridSize cats)
    (hid : a.id = cats[j].id)
    (hval : a.isExited = false →
      (InBounds gridSize (headCell a) ∧ InBounds gridSize (tailCell a)) ∧ IntCat a ∧
      ∀ i (hi : i < cats.length), i ≠ j → cats[i].isExited = false →
        CellsDisjoint a cats[i]) :
    GameInv gridSize (cats.set j a) := by
  obtain ⟨⟨hbounds, hpair⟩, hint, hnodup⟩ := hInv
  refine ⟨⟨?_, ?_⟩, ?_, ?_⟩
  · intro c hc hcex
    rcases List.mem_or_eq_of_mem_set hc with hcm | rfl
    · exact hbounds c hcm hcex
    · exact (hval hcex).1
  · rw [List.pairwise_iff_getElem] at hpair ⊢
    intro a1 b1 ha hb hab
    have ha2 : a1 < cats.length := by simpa using ha
    have hb2 : b1 < cats.length := by simpa using hb
    by_cases haj : j = a1
    · subst haj
      have hbj : j ≠ b1 := by omega
      rw [List.getElem_set_self (by simpa using hj), List.getElem_set_ne hbj]
      intro h1 h2
      exact (hval h1).2.2 b1 hb2 (fun h => hbj h.symm) h2
    · rw [List.getElem_set_ne haj]
      by_cases hbj : j = b1
      · subst hbj
        rw [List.getElem_set_self (by simpa using hj)]
        intro h1 h2
        exact cellsDisjoint_symm ((hval h2).2.2 a1 ha2 (fun h => haj h.symm) h1)
      · rw [List.getElem_set_ne hbj]
        exact hpair a1 b1 ha2 hb2 hab
  · intro c hc hcex
    rcases List.mem_or_eq_of_mem_set hc with hcm | rfl
    · exact hint c hcm hcex
    · exact (hval hcex).2.1
  · rw [map_set_id_same cats j hj a hid]
    exact hnodup

/-- The move resolver preserves the full invariant. -/
lemma resolveMove_inv (gridSize : ℕ) (cats : List CatEntity) (id : ℕ)
    (hInv : GameInv gridSize cats) : GameInv gridSize (resolveMove gridSize cats id) := by
  rw [resolveMove]
  rcases hfind : cats.findIdx? (fun c => c.id == id) with _ | j
  · simp only [hfind]
    exact hInv
  · simp only [hfind]
    rcases hget : cats[j]? with _ | cat
    · simp only [hget]
      exact hInv
    · simp only [hget]
      by_cases hexc : cat.isExited
      · rw [if_pos hexc]
        exact hInv
      · rw [if_neg hexc]
        have hexc2 : cat.isExited = false := by simpa using hexc
        obtain ⟨k0, hk0lt, hj0, hpk0⟩ := findIdx?_some_spec hfind
        have hjlt : j < cats.length := by omega
        have hcatj : cats[j] = cat := by
          rw [List.getElem?_eq_getElem hjlt] at hget
          exact Option.some_injective _ hget
        have hcatmem : cat ∈ cats := hcatj ▸ List.getElem_mem hjlt
        have hjk : j = k0 := by omega
        subst hjk
        have hid : cat.id = id := by
          have hco : cats.get ⟨j, hk0lt⟩ = cat := hcatj
          rw [hco] at hpk0
          simpa using hpk0
        obtain ⟨⟨hbounds, hpair⟩, hint, hnodup⟩ := hInv
        have hcatint : IntCat cat := hint cat hcatmem hexc2
        have hray := raycastLoop_spec gridSize cats id cat (getDelta cat.direction).dx
          (getDelta cat.direction).dy gridSize 1 cat.x cat.y le_rfl (by simp [rayPos])
          (fun j hj1 hj2 => absurd hj2 (by omega))
        set dx := (getDelta cat.direction).dx with hdx
        set dy := (getDelta cat.direction).dy with hdy
        set r := raycastLoop gridSize cats id cat dx dy gridSize 1 cat.x cat.y with hrdef
        -- the pairwise facts in getElem form, and cross-cat disjointness from the input
        have hpairget := List.pairwise_iff_getElem.mp hpair
        have hdisj : ∀ i (hi : i < cats.length), i ≠ j → cats[i].isExited = false →
            CellsDisjoint cat cats[i] := by
          intro i hi hij hiex
          rcases lt_or_gt_of_ne hij with hlt | hgt
          · have := hpairget i j hi hjlt hlt hiex (by rw [hcatj]; exact hexc2)
            rw [hcatj] at this
            exact cellsDisjoint_symm this
          · have := hpairget j i hjlt hi hgt (by rw [hcatj]; exact hexc2) hiex
            rw [hcatj] at this
            exact this
        have hcid : ∀ i (hi : i < cats.length), i ≠ j → cats[i].id ≠ id := by
          intro i hi hij heq
          apply hij
          have hi2 : i < (cats.map CatEntity.id).length := by simpa using hi
          have hj2 : j < (cats.map CatEntity.id).length := by simpa using hjlt
          have h1 : (cats.map CatEntity.id)[i] = (cats.map CatEntity.id)[j] := by
            rw [List.getElem_map, List.getElem_map, hcatj]
            rw [heq]
            exact hid.symm
          exact (hnodup.getElem_inj_iff).mp h1
        rcases hray with hexit | ⟨k, hk, hfrees⟩
        · by_cases hno : r.1 = cat.x ∧ r.2.1 = cat.y
          · rw [if_pos hno]
            exact ⟨⟨hbounds, hpair⟩, hint, hnodup⟩
          · rw [if_neg hno]
            apply gameInv_set gridSize cats j hjlt _ ⟨⟨hbounds, hpair⟩, hint, hnodup⟩
            · show cat.id = cats[j].id
              rw [hcatj]
            · intro hfalse
              have hf2 : r.2.2 = false := hfalse
              rw [hexit] at hf2
              cases hf2
        · by_cases hno : r.1 = cat.x ∧ r.2.1 = cat.y
          · rw [if_pos hno]
            exact ⟨⟨hbounds, hpair⟩, hint, hnodup⟩
          · rw [if_neg hno]
            have hk1 : 1 ≤ k := by
              by_contra hc
              obtain rfl : k = 0 := by omega
              apply hno
              rw [hk]
              constructor <;> simp [rayPos]
            have hcast : ((k - 1 : ℕ) : ℚ) = (k : ℚ) - 1 := by
              push_cast [Nat.cast_sub hk1]
              ring
            apply gameInv_set gridSize cats j hjlt _ ⟨⟨hbounds, hpair⟩, hint, hnodup⟩
            · show cat.id = cats[j].id
              rw [hcatj]
            · intro _
              have hhead : headCell { cat with
                  x := r.1, y := r.2.1, isExited := r.2.2, isMoving := true }
                  = rayPos cat dx dy k := by
                rw [headCell, hk]
              have htail : tailCell { cat with
                  x := r.1, y := r.2.1, isExited := r.2.2, isMoving := true }
                  = rayPos cat dx dy (k - 1) := by
                rw [tailCell, hk]
                show ((rayPos cat dx dy k).1 - dx, (rayPos cat dx dy k).2 - dy)
                  = rayPos cat dx dy (k - 1)
                simp only [rayPos, hcast, Prod.mk.injEq]
                exact ⟨by ring, by ring⟩
              have hfk := hfrees k hk1 le_rfl
              have hray0 : rayPos cat dx dy 0 = headCell cat := by
                simp [rayPos, headCell]
              have htail_spec : ∀ i (hi : i < cats.length), i ≠ j →
                  cats[i].isExited = false →
                  headCell cats[i] ≠ rayPos cat dx dy (k - 1) ∧
                  tailCell cats[i] ≠ rayPos cat dx dy (k - 1) := by
                intro i hi hij hiex
                by_cases hk1e : k = 1
                · subst hk1e
                  rw [show (1 - 1 : ℕ) = 0 from rfl, hray0]
                  have := hdisj i hi hij hiex
                  exact ⟨fun h => this.1 h.symm, fun h => this.2.1 h.symm⟩
                · exact obstacle_false_spec (hfrees (k - 1) (by omega) (by omega)).2
                    (List.getElem_mem hi) (hcid i hi hij) hiex
                    (hint _ (List.getElem_mem hi) hiex)
              refine ⟨⟨?_, ?_⟩, ?_, ?_⟩
              · rw [hhead]
                exact not_OOB_iff.mp hfk.1
              · rw [htail]
                by_cases hk1e : k = 1
                · subst hk1e
                  rw [show (1 - 1 : ℕ) = 0 from rfl, hray0]
                  exact (hbounds cat hcatmem hexc2).1
                · exact not_OOB_iff.mp (hfrees (k - 1) (by omega) (by omega)).1
              · constructor
                · show IsIntQ r.1
                  rw [hk]
                  show IsIntQ (cat.x + dx * k)
                  exact hcatint.1.add ((delta_dx_int _).mul (IsIntQ.natCast k))
                · show IsIntQ r.2.1
                  rw [hk]
                  show IsIntQ (cat.y + dy * k)
                  exact hcatint.2.add ((delta_dy_int _).mul (IsIntQ.natCast k))
              · intro i hi hij hiex
                have hhs := obstacle_false_spec hfk.2 (List.getElem_mem hi)
                  (hcid i hi hij) hiex (hint _ (List.getElem_mem hi) hiex)
                have hts := htail_spec i hi hij hiex
                refine ⟨?_, ?_, ?_, ?_⟩
                · rw [hhead]
                  exact fun h => hhs.1 h.symm
                · rw [hhead]
                  exact fun h => hhs.2 h.symm
                · rw [htail]
                  exact fun h => hts.1 h.symm
                · rw [htail]
                  exact fun h => hts.2 h.symm

/-! ## Claim C1: the state invariant — generation -/

/-- Loop invariant of the placement walk: the accumulator holds only active, in-bounds,
integral, pairwise-disjoint cats, and every accumulated cat's head and tail cell is
recorded in `occupied`. -/
def GenLoopInv (gridSize : ℕ) (cats : List CatEntity) (occupied : List Cell) : Prop :=
  (∀ c ∈ cats, c.isExited = false) ∧
  (∀ c ∈ cats, InBounds gridSize (headCell c) ∧ InBounds gridSize (tailCell c)) ∧
  (∀ c ∈ cats, IntCat c) ∧
  List.Pairwise DisjRel cats ∧
  (∀ c ∈ cats, headCell c ∈ occupied ∧ tailCell c ∈ occupied)

/-- The placement walk preserves its loop invariant and tracks ids: the cat placed at
accumulator position `k` receives id `o.idAt k`. -/
lemma placeCats_loopInv (o : GenOracle) (gridSize : ℕ) (bombChance : ℚ)
    (skins : List String) (target : ℤ) :
    ∀ cells idx cats occupied,
      (∀ cell ∈ cells, cell ∈ allCells gridSize) →
      GenLoopInv gridSize cats occupied →
      cats.map CatEntity.id = (List.range cats.length).map o.idAt →
      ∃ occ2,
        GenLoopInv gridSize
          (placeCats o gridSize bombChance skins target cells idx cats occupied) occ2 ∧
        (placeCats o gridSize bombChance skins target cells idx cats occupied).map
            CatEntity.id
          = (List.range (placeCats o gridSize bombChance skins target cells idx cats
              occupied).length).map o.idAt := by
  intro cells
  induction cells with
  | nil =>
    intro idx cats occupied _ hInv hids
    have he : placeCats o gridSize bombChance skins target [] idx cats occupied = cats := by
      rw [placeCats]
    rw [he]
    exact ⟨occupied, hInv, hids⟩
  | cons cell rest ih =>
    intro idx cats occupied hcells hInv hids
    rw [placeCats]
    by_cases htarget : target ≤ (cats.length : ℤ)
    · rw [if_pos htarget]
      exact ⟨occupied, hInv, hids⟩
    · rw [if_neg htarget]
      by_cases hocc : cell ∈ occupied
      · rw [if_pos hocc]
        exact ih (idx + 1) cats occupied
          (fun c hc => hcells c (List.mem_cons_of_mem cell hc)) hInv hids
      · rw [if_neg hocc]
        rcases htry : tryDirections gridSize cell occupied
            (decide (o.bombRand cats.length < bombChance))
            (skins.getD ((o.skinRand cats.length * skins.length).floor.toNat) "")
            (o.idAt cats.length) (o.dirsAt idx) with hnone | ⟨cat⟩
        · simp only [htry]
          exact ih (idx + 1) cats occupied
            (fun c hc => hcells c (List.mem_cons_of_mem cell hc)) hInv hids
        · simp only [htry]
          obtain ⟨hact, hbnd, hintc, hpw, hoccv⟩ := hInv
          obtain ⟨dir, _, hcat, hval, htmem⟩ :=
            tryDirections_spec gridSize cell occupied _ _ _ _ cat htry
          obtain ⟨hcellx, hcelly, hcellb⟩ :=
            mem_allCells (hcells cell (List.mem_cons_self cell rest))
          have hx : cat.x = cell.1 - (getDelta dir).dx := by rw [hcat]
          have hy : cat.y = cell.2 - (getDelta dir).dy := by rw [hcat]
          have hd : cat.direction = getOppositeDir dir := by rw [hcat]
          have hex : cat.isExited = false := by rw [hcat]
          have hcid2 : cat.id = o.idAt cats.length := by rw [hcat]
          have hhead : headCell cat
              = (cell.1 - (getDelta dir).dx, cell.2 - (getDelta dir).dy) := by
            rw [headCell, hx, hy]
          have htail : tailCell cat = cell := by
            rw [tailCell, hx, hy, hd, (getDelta_opposite dir).1, (getDelta_opposite dir).2]
            exact Prod.ext
              (by show cell.1 - (getDelta dir).dx - -(getDelta dir).dx = cell.1; ring)
              (by show cell.2 - (getDelta dir).dy - -(getDelta dir).dy = cell.2; ring)
          have hnh : headCell cat ∉ occupied := by rw [hhead]; exact htmem
          have hnt : tailCell cat ∉ occupied := by rw [htail]; exact hocc
          have hnewids : (cats ++ [cat]).map CatEntity.id
              = (List.range (cats ++ [cat]).length).map o.idAt := by
            rw [List.map_append, hids]
            have hlen : (cats ++ [cat]).length = cats.length + 1 := by simp
            rw [hlen, List.range_succ, List.map_append]
            simp [hcid2]
          apply ih (idx + 1) (cats ++ [cat]) (occupied ++ [cell, (cat.x, cat.y)])
            (fun c hc => hcells c (List.mem_cons_of_mem cell hc)) ?_ hnewids
          refine ⟨?_, ?_, ?_, ?_, ?_⟩
          · intro c hc
            rcases List.mem_append.mp hc with h | h
            · exact hact c h
            · rw [List.mem_singleton.mp h]
              exact hex
          · intro c hc
            rcases List.mem_append.mp hc with h | h
            · exact hbnd c h
            · rw [List.mem_singleton.mp h]
              constructor
              · rw [hhead]
                exact isValid_iff.mp hval
              · rw [htail]
                exact hcellb
          · intro c hc
            rcases List.mem_append.mp hc with h | h
            · exact hintc c h
            · rw [List.mem_singleton.mp h]
              exact ⟨by rw [hx]; exact hcellx.sub (delta_dx_int dir),
                     by rw [hy]; exact hcelly.sub (delta_dy_int dir)⟩
          · refine List.pairwise_append.mpr ⟨hpw, by simp, ?_⟩
            intro a ha b hb
            rw [List.mem_singleton.mp hb]
            intro _ _
            have hoa := hoccv a ha
            exact ⟨fun h => hnh (h ▸ hoa.1), fun h => hnt (h ▸ hoa.1),
                   fun h => hnh (h ▸ hoa.2), fun h => hnt (h ▸ hoa.2)⟩
          · intro c hc
            rcases List.mem_append.mp hc with h | h
            · have hoa := hoccv c h
              exact ⟨List.mem_append_left _ hoa.1, List.mem_append_left _ hoa.2⟩
            · rw [List.mem_singleton.mp h]
              constructor
              · show headCell cat ∈ occupied ++ [cell, (cat.x, cat.y)]
                have hco : headCell cat = (cat.x, cat.y) := rfl
                rw [hco]
                exact List.mem_append_right _ (by simp)
              · rw [htail]
                exact List.mem_append_right _ (by simp)

/-- The generated level state satisfies the full invariant. -/
lemma generateLevel_inv (o : GenOracle) (level : ℕ)
    (hwf : o.WF (getLevelConfig level).size) :
    GameInv (getLevelConfig level).size (generateLevel o level).cats := by
  obtain ⟨_, _, hperm, _, _, _, _, hinj⟩ := hwf
  have hcells : ∀ cell ∈ o.cells, cell ∈ allCells (getLevelConfig level).size :=
    fun cell hc => hperm.mem_iff.mp hc
  have hbase : GenLoopInv (getLevelConfig level).size [] [] :=
    ⟨by simp, by simp, by simp, List.Pairwise.nil, by simp⟩
  obtain ⟨occ2, ⟨hact, hbnd, hintc, hpw, _⟩, hids⟩ :=
    placeCats_loopInv o (getLevelConfig level).size (getLevelConfig level).bombChance
      (CAT_SKINS.take (getLevelConfig level).skinCount)
      ((((getLevelConfig level).size : ℤ) * (getLevelConfig level).size
        - ((o.emptyRand * (10 - 2 + 1)).floor + 2)) / 2)
      o.cells 0 [] [] hcells hbase rfl
  have hcats : (generateLevel o level).cats = List.insertionSort catLeP
      (placeCats o (getLevelConfig level).size (getLevelConfig level).bombChance
        (CAT_SKINS.take (getLevelConfig level).skinCount)
        ((((getLevelConfig level).size : ℤ) * (getLevelConfig level).size
          - ((o.emptyRand * (10 - 2 + 1)).floor + 2)) / 2)
        o.cells 0 [] []) := rfl
  rw [hcats]
  have hperm2 := List.perm_insertionSort catLeP
    (placeCats o (getLevelConfig level).size (getLevelConfig level).bombChance
      (CAT_SKINS.take (getLevelConfig level).skinCount)
      ((((getLevelConfig level).size : ℤ) * (getLevelConfig level).size
        - ((o.emptyRand * (10 - 2 + 1)).floor + 2)) / 2)
      o.cells 0 [] [])
  refine ⟨⟨?_, ?_⟩, ?_, ?_⟩
  · intro c hc _
    exact hbnd c (hperm2.mem_iff.mp hc)
  · exact (List.Perm.pairwise_iff (fun h => disjRel_symm h) hperm2.symm).mp hpw
  · intro c hc _
    exact hintc c (hperm2.mem_iff.mp hc)
  · refine ((hperm2.map CatEntity.id).nodup_iff).mpr ?_
    rw [hids]
    exact (List.nodup_range _).map hinj

/-- The shuffle walk preserves the placement loop invariant. -/
lemma shufLoop_loopInv (o : ShufOracle) (gridSize : ℕ)
    (hcells : ∀ cell ∈ o.cells, cell ∈ allCells gridSize) :
    ∀ olds catIdx acc occupied,
      (∀ c ∈ olds, c.isExited = false) →
      GenLoopInv gridSize acc occupied →
      ∃ occ2, GenLoopInv gridSize (shufLoop o gridSize olds catIdx acc occupied) occ2 := by
  intro olds
  induction olds with
  | nil =>
    intro catIdx acc occupied _ hInv
    have he : shufLoop o gridSize [] catIdx acc occupied = acc := by rw [shufLoop]
    rw [he]
    exact ⟨occupied, hInv⟩
  | cons oldCat rest ih =>
    intro catIdx acc occupied holds hInv
    rw [shufLoop]
    rcases hspot : findSpot o gridSize catIdx oldCat occupied o.cells 0
        with hnone | ⟨newCat⟩
    · exact ih (catIdx + 1) acc occupied
        (fun c hc => holds c (List.mem_cons_of_mem oldCat hc)) hInv
    · obtain ⟨hact, hbnd, hintc, hpw, hoccv⟩ := hInv
      obtain ⟨cell, hcellmem, dir, hcellnot, hcat, hval, htmem⟩ :=
        findSpot_spec o gridSize catIdx oldCat occupied o.cells 0 newCat hspot
      obtain ⟨hcellx, hcelly, hcellb⟩ := mem_allCells (hcells cell hcellmem)
      have hx : newCat.x = cell.1 := by rw [hcat]
      have hy : newCat.y = cell.2 := by rw [hcat]
      have hd : newCat.direction = dir := by rw [hcat]
      have hex : newCat.isExited = false := by
        rw [hcat]
        show oldCat.isExited = false
        exact holds oldCat (List.mem_cons_self oldCat rest)
      have hhead : headCell newCat = cell := by rw [headCell, hx, hy]
      have htail : tailCell newCat
          = (cell.1 - (getDelta dir).dx, cell.2 - (getDelta dir).dy) := by
        rw [tailCell, hx, hy, hd]
      have hnh : headCell newCat ∉ occupied := by rw [hhead]; exact hcellnot
      have hnt : tailCell newCat ∉ occupied := by rw [htail]; exact htmem
      apply ih (catIdx + 1) (acc ++ [newCat])
        (occupied ++ [headCell newCat, tailCell newCat])
        (fun c hc => holds c (List.mem_cons_of_mem oldCat hc))
      refine ⟨?_, ?_, ?_, ?_, ?_⟩
      · intro c hc
        rcases List.mem_append.mp hc with h | h
        · exact hact c h
        · rw [List.mem_singleton.mp h]
          exact hex
      · intro c hc
        rcases List.mem_append.mp hc with h | h
        · exact hbnd c h
        · rw [List.mem_singleton.mp h]
          constructor
          · rw [hhead]
            exact hcellb
          · rw [htail]
            exact isValid_iff.mp hval
      · intro c hc
        rcases List.mem_append.mp hc with h | h
        · exact hintc c h
        · rw [List.mem_singleton.mp h]
          exact ⟨by rw [hx]; exact hcellx, by rw [hy]; exact hcelly⟩
      · refine List.pairwise_append.mpr ⟨hpw, by simp, ?_⟩
        intro a ha b hb
        rw [List.mem_singleton.mp hb]
        intro _ _
        have hoa := hoccv a ha
        exact ⟨fun h => hnh (h ▸ hoa.1), fun h => hnt (h ▸ hoa.1),
               fun h => hnh (h ▸ hoa.2), fun h => hnt (h ▸ hoa.2)⟩
      · intro c hc
        rcases List.mem_append.mp hc with h | h
        · have hoa := hoccv c h
          exact ⟨List.mem_append_left _ hoa.1, List.mem_append_left _ hoa.2⟩
        · rw [List.mem_singleton.mp h]
          exact ⟨List.mem_append_right _ (by simp),
                 List.mem_append_right _ (by simp)⟩

/-- Re-homed cats keep their ids (read off the `SameCore` frame relation). -/
lemma forall₂_sameCore_ids :
    ∀ {kept newOnes : List CatEntity}, List.Forall₂ SameCore kept newOnes →
      newOnes.map CatEntity.id = kept.map CatEntity.id := by
  intro kept newOnes h
  induction h with
  | nil => rfl
  | cons h1 _ ih => simp [h1.1, ih]

/-- A well-formed shuffle preserves the full invariant. -/
lemma shuffleCats_inv (o : ShufOracle) (cats : List CatEntity) (gridSize : ℕ)
    (hwf : o.WF gridSize) (hInv : GameInv gridSize cats) :
    GameInv gridSize (shuffleCats o cats gridSize) := by
  obtain ⟨hperm, _⟩ := hwf
  obtain ⟨⟨hbounds, hpair⟩, hint, hnodup⟩ := hInv
  have hcells : ∀ cell ∈ o.cells, cell ∈ allCells gridSize :=
    fun cell hc => hperm.mem_iff.mp hc
  have hallact : ∀ c ∈ cats.filter (fun c => !c.isExited), c.isExited = false := by
    intro c hc
    simpa using (List.mem_filter.mp hc).2
  have hallex : ∀ c ∈ cats.filter (fun c => c.isExited), c.isExited = true :=
    fun c hc => (List.mem_filter.mp hc).2
  obtain ⟨occ2, hact2, hbnd2, hint2, hpw2, _⟩ :=
    shufLoop_loopInv o gridSize hcells (cats.filter fun c => !c.isExited) 0 [] []
      hallact ⟨by simp, by simp, by simp, List.Pairwise.nil, by simp⟩
  obtain ⟨kept, newOnes, hsub, hall, heq⟩ :=
    shufLoop_frame o gridSize (cats.filter fun c => !c.isExited) 0 [] []
  rw [List.nil_append] at heq
  have hsc : shuffleCats o cats gridSize = List.insertionSort catLeP
      ((cats.filter fun c => c.isExited)
        ++ shufLoop o gridSize (cats.filter fun c => !c.isExited) 0 [] []) := rfl
  have hperm3 := List.perm_insertionSort catLeP
    ((cats.filter fun c => c.isExited)
      ++ shufLoop o gridSize (cats.filter fun c => !c.isExited) 0 [] [])
  refine ⟨⟨?_, ?_⟩, ?_, ?_⟩
  · intro c hc hcex
    rw [hsc] at hc
    rcases List.mem_append.mp (hperm3.mem_iff.mp hc) with h | h
    · exact absurd (hallex c h) (by simp [hcex])
    · exact hbnd2 c h
  · rw [hsc]
    refine (List.Perm.pairwise_iff (fun h => disjRel_symm h) hperm3.symm).mp ?_
    refine List.pairwise_append.mpr ⟨?_, hpw2, ?_⟩
    · apply List.pairwise_of_forall_mem_list
      intro a ha b hb h1 _
      exact absurd (hallex a ha) (by simp [h1])
    · intro a ha b hb h1 _
      exact absurd (hallex a ha) (by simp [h1])
  · intro c hc hcex
    rw [hsc] at hc
    rcases List.mem_append.mp (hperm3.mem_iff.mp hc) with h | h
    · exact absurd (hallex c h) (by simp [hcex])
    · exact hint2 c h
  · rw [hsc]
    refine ((hperm3.map CatEntity.id).nodup_iff).mpr ?_
    rw [List.map_append, heq, forall₂_sameCore_ids hall]
    have h1 : ((cats.filter fun c => c.isExited).map CatEntity.id
          ++ kept.map CatEntity.id).Sublist
        ((cats.filter fun c => c.isExited).map CatEntity.id
          ++ (cats.filter fun c => !c.isExited).map CatEntity.id) :=
      (hsub.map CatEntity.id).append_left _
    apply h1.nodup
    rw [← List.map_append]
    exact (((List.filter_append_perm (fun c => c.isExited) cats).map
      CatEntity.id).nodup_iff).mpr hnodup

/-- Flipping the whole board preserves the full invariant: heads and tails swap, so
bounds and disjointness carry over, and ids are untouched. -/
lemma flipAll_inv (gridSize : ℕ) (cats : List CatEntity) (hInv : GameInv gridSize cats) :
    GameInv gridSize (flipAll cats) := by
  obtain ⟨⟨hbounds, hpair⟩, hint, hnodup⟩ := hInv
  refine ⟨⟨?_, ?_⟩, ?_, ?_⟩
  · intro c hc hcex
    obtain ⟨c0, hc0, rfl⟩ := List.mem_map.mp hc
    have hex0 : c0.isExited = false := by rw [← flipCat_isExited]; exact hcex
    obtain ⟨hh, ht⟩ := flipCat_cells c0 hex0
    rw [hh, ht]
    exact ⟨(hbounds c0 hc0 hex0).2, (hbounds c0 hc0 hex0).1⟩
  · rw [flipAll, List.pairwise_map]
    refine hpair.imp ?_
    intro a b hab h1 h2
    have ha0 : a.isExited = false := by rw [← flipCat_isExited]; exact h1
    have hb0 : b.isExited = false := by rw [← flipCat_isExited]; exact h2
    obtain ⟨hha, hta⟩ := flipCat_cells a ha0
    obtain ⟨hhb, htb⟩ := flipCat_cells b hb0
    obtain ⟨d1, d2, d3, d4⟩ := hab ha0 hb0
    exact ⟨by rw [hha, hhb]; exact d4, by rw [hha, htb]; exact d3,
           by rw [hta, hhb]; exact d2, by rw [hta, htb]; exact d1⟩
  · intro c hc hcex
    obtain ⟨c0, hc0, rfl⟩ := List.mem_map.mp hc
    have hex0 : c0.isExited = false := by rw [← flipCat_isExited]; exact hcex
    obtain ⟨hix, hiy⟩ := hint c0 hc0 hex0
    obtain ⟨hfx, hfy, _⟩ := flipCat_fields c0 hex0
    exact ⟨by rw [hfx]; exact hix.sub (delta_dx_int _),
           by rw [hfy]; exact hiy.sub (delta_dy_int _)⟩
  · rw [flipAll, List.map_map]
    have hcomp : (CatEntity.id ∘ flipCat) = fun c => c.id := funext fun c => flipCat_id c
    rw [hcomp]
    exact hnodup

/-- Every reachable state satisfies the full invariant. -/
lemma reach_inv {gridSize : ℕ} {cats : List CatEntity} (h : Reach gridSize cats) :
    GameInv gridSize cats := by
  induction h with
  | gen o level hwf => exact generateLevel_inv o level hwf
  | move gridSize cats id _ ih => exact resolveMove_inv gridSize cats id ih
  | shuf gridSize cats o hwf _ ih => exact shuffleCats_inv o cats gridSize hwf ih
  | flip gridSize cats _ ih => exact flipAll_inv gridSize cats ih

/-- C1: for every state reachable by generateLevel followed by any sequence of
resolveMove, well-formed shuffleCats and flipAll operations, every non-exited piece's
head cell and tail cell (tail = head − delta(direction)) lie within [0, gridSize) on
both axes, and the occupied cell sets {head, tail} of any two distinct non-exited
pieces are disjoint. -/
theorem reach_valid (gridSize : ℕ) (cats : List CatEntity) (h : Reach gridSize cats) :
    ValidState gridSize cats := (reach_inv h).1

/-- The concrete level-1 oracle is well formed. -/
lemma stdOracle_wf : stdOracle.WF 8 := by
  refine ⟨?_, ?_, List.perm_insertionSort (distLeP 8) (allCells 8),
    List.sorted_insertionSort (distLeP 8) (allCells 8),
    fun k => List.Perm.refl _, fun k => ⟨?_, ?_⟩, fun k => ⟨?_, ?_⟩,
    fun a b h => h⟩
  · show (0:ℚ) ≤ 0
    norm_num
  · show (0:ℚ) < 1
    norm_num
  · show (0:ℚ) ≤ 0
    norm_num
  · show (0:ℚ) < 1
    norm_num
  · show (0:ℚ) ≤ 0
    norm_num
  · show (0:ℚ) < 1
    norm_num

/-- Witness for C1: the level generated by the concrete well-formed oracle at level 1 is
reachable, hence structurally valid. -/
theorem reach_valid_witness :
    ValidState (getLevelConfig 1).size (generateLevel stdOracle 1).cats :=
  reach_valid (getLevelConfig 1).size (generateLevel stdOracle 1).cats
    (Reach.gen stdOracle 1 stdOracle_wf)
